import Mathlib

/-!
# controldb: the directory resolver of `sourcestreams.go`

A shallow embedding of `FetchAllCatchers`, `FetchIngesterHosts` and `parseStation`
(package `controldb`, file `src/vendor/github.com/Syncbak-Git/controldb/sourcestreams.go`).

* A Go `string` is a Lean `String`; `len` is the byte count of its UTF-8 encoding.
* A Go `map[string]V` is an association list with distinct keys (`GoMap`); the order of
  a `range` over a map, which Go leaves unspecified, is a parameter (`RangeOrder`).
* The Redis connection is a record of replies (`Conn`): what `connect`, `KEYS` and each
  `MULTI … EXEC` round trip answer. A consistent store is the special case `Snapshot.conn`.
* A Go call ends in one of three ways (`Outcome`): a value with a nil error, a non-nil
  error, or a run-time panic (index out of range).
-/

namespace controldb

/-! ## Go strings -/

/-- Go's `len(s)` of a string: its number of bytes. -/
def len (s : String) : Nat := s.utf8ByteSize

/-- Go's `strings.HasPrefix(s, p)`. -/
def HasPrefix (s p : String) : Bool := p.data.isPrefixOf s.data

/-- Go's `strings.TrimPrefix(s, p)`: `s` without the leading `p`, or `s` itself when it
does not start with `p`. -/
def TrimPrefix (s p : String) : String :=
  if HasPrefix s p then ⟨s.data.drop p.data.length⟩ else s

/-- The pieces of a character list between the occurrences of `sep`; a list with `n`
separators gives `n + 1` pieces. -/
def splitChars (sep : Char) : List Char → List (List Char)
  | [] => [[]]
  | c :: cs =>
    if c = sep then [] :: splitChars sep cs
    else
      match splitChars sep cs with
      | [] => [[c]]
      | p :: ps => (c :: p) :: ps

/-- Go's `strings.Split(s, sep)` for a separator of one character (the source only
splits on `":"`). -/
def Split (s : String) (sep : Char) : List String :=
  (splitChars sep s.data).map String.mk

/-- Go's `unicode.IsSpace`. -/
def isSpace (c : Char) : Bool :=
  decide (c.toNat ∈ [0x09, 0x0A, 0x0B, 0x0C, 0x0D, 0x20, 0x85, 0xA0, 0x1680, 0x2028, 0x2029,
    0x202F, 0x205F, 0x3000]) || (decide (0x2000 ≤ c.toNat) && decide (c.toNat ≤ 0x200A))

/-- Go's `strings.TrimSpace(s)`: `s` without its leading and trailing white space. -/
def TrimSpace (s : String) : String :=
  ⟨((s.data.dropWhile isSpace).reverse.dropWhile isSpace).reverse⟩

/-- Replaces the first `n` non-overlapping occurrences of the non-empty `old` by `new`,
scanning from the left; `skip` counts the characters of a matched `old` still to drop. -/
def replaceChars (old new : List Char) : Nat → Nat → List Char → List Char
  | _, _, [] => []
  | skip + 1, n, _ :: cs => replaceChars old new skip n cs
  | 0, 0, c :: cs => c :: cs
  | 0, n + 1, c :: cs =>
    if old.isPrefixOf (c :: cs) then new ++ replaceChars old new (old.length - 1) n cs
    else c :: replaceChars old new 0 (n + 1) cs

/-- Go's `strings.Replace(s, old, new, n)` for a non-empty `old` and `n ≥ 0`. -/
def Replace (s old new : String) (n : Nat) : String :=
  ⟨replaceChars old.data new.data 0 n s.data⟩

/-- Go's `a < b` on strings, which compares them byte by byte; on UTF-8 text that is
the order of the code points. -/
def lexLT : List Char → List Char → Bool
  | _, [] => false
  | [], _ :: _ => true
  | a :: as, b :: bs =>
    decide (a.toNat < b.toNat) || (decide (a.toNat = b.toNat) && lexLT as bs)

/-- Go's `sort.Strings`: the strings in increasing order. -/
def sortStrings (l : List String) : List String :=
  l.insertionSort (fun a b => lexLT b.data a.data = false)

/-! ## Outcomes, maps and the connection -/

/-- A Go `error` value, by its message. -/
abbrev Error := String

/-- How a call ends: `ok v` is `(v, nil)`, `fail e` is `(nil, e)`, and `panic` is a
run-time panic (an index out of range). -/
inductive Outcome (α : Type) where
  | ok (val : α)
  | fail (err : Error)
  | panic
  deriving DecidableEq, Repr

/-- A Go `map[string]V`: the entries, with distinct keys, oldest key first. -/
abbrev GoMap (V : Type) := List (String × V)

/-- The map read `v, ok := m[k]`. -/
def GoMap.get? {V : Type} : GoMap V → String → Option V
  | [], _ => none
  | (k', v) :: t, k => if k = k' then some v else GoMap.get? t k

/-- The map write `m[k] = v`. -/
def GoMap.set {V : Type} : GoMap V → String → V → GoMap V
  | [], k, v => [(k, v)]
  | (k', v') :: t, k, v => if k = k' then (k, v) :: t else (k', v') :: GoMap.set t k v

/-- The keys of a map. -/
def GoMap.keys {V : Type} (m : GoMap V) : List String := m.map Prod.fst

/-- An order in which `range` may visit the keys of a map: Go leaves it unspecified, so
any rearrangement of the keys is one. -/
structure RangeOrder where
  order : List String → List String
  perm : ∀ ks, (order ks).Perm ks

/-- The order that visits the keys oldest first. -/
def RangeOrder.asStored : RangeOrder := ⟨id, fun _ => List.Perm.refl _⟩

/-- The order that visits the keys newest first. -/
def RangeOrder.reversed : RangeOrder := ⟨List.reverse, fun ks => List.reverse_perm ks⟩

/-- The pairs `for k, v := range m` visits, in the order `ρ`. -/
def GoMap.range {V : Type} (ρ : RangeOrder) (m : GoMap V) : List (String × V) :=
  (ρ.order (GoMap.keys m)).filterMap (fun k => (GoMap.get? m k).map (fun v => (k, v)))

/-- The Redis server as one call of `FetchAllCatchers` sees it. `connect` is the result
of `connect(db.StreamConnection)`; `keys` is `redigo.Strings(conn.Do("KEYS", pattern))`;
`EXEC stage gets` is `redigo.Strings(conn.Do("EXEC"))` for the transaction of the given
stage (2, 3 or 4) in which the keys `gets` were queued with `GET`. -/
structure Conn where
  connect : Except Error Unit
  keys : Except Error (List String)
  EXEC : Nat → List String → Except Error (List String)

/-- A consistent store: the stream IDs `s` for which the key `nameservice:stream:s`
exists, in the order `KEYS` enumerates them, and the value `GET` gives for every key
(the empty string for a key that does not exist). -/
structure Snapshot where
  streamIDs : List String
  get : String → String

/-- The key space of the stream records (the constant `prefix` of the source). -/
def streamKeyPfx : String := "nameservice:stream:"

/-- A reachable server that answers every request from the snapshot. -/
def Snapshot.conn (s : Snapshot) : Conn where
  connect := .ok ()
  keys := .ok (s.streamIDs.map (fun id => streamKeyPfx ++ id))
  EXEC := fun _ gets => .ok (gets.map s.get)

/-! ## FetchAllCatchers -/

/-- Lines 113–127: the loop over the stage-2 replies `r`, which files the stream ID of
`result[i]` under the IP `r[i]`. `err` is the error of the stage-2 `EXEC`. -/
def groupLoop (result : List String) (err : Option Error) :
    List String → Nat → GoMap (List String) → Outcome (GoMap (List String))
  | [], _, mapOfIPAddresses => .ok mapOfIPAddresses
  | ip :: r, i, mapOfIPAddresses =>
    match err with
    | some e => .fail e
    | none =>
      match result[i]? with
      | none => .panic
      | some key =>
        let mediaID := TrimPrefix key streamKeyPfx
        let mediaIDs :=
          match GoMap.get? mapOfIPAddresses ip with
          | some mediaIDs => mediaIDs ++ [mediaID]
          | none => [mediaID]
        groupLoop result err r (i + 1) (GoMap.set mapOfIPAddresses ip mediaIDs)

/-- Lines 135–145: the `GET`s queued for stage 3, a `hostlookup:` for every IP and then
a `nameservice:activehost:` for every stream ID of every IP. -/
def stage3Gets (keys : List String) (mapOfIPAddresses : GoMap (List String)) : List String :=
  keys.map (fun key => "hostlookup:" ++ key) ++
    keys.flatMap (fun key =>
      ((GoMap.get? mapOfIPAddresses key).getD []).map (fun id => "nameservice:activehost:" ++ id))

/-- Lines 155–159: `hosts[key] = names[i]`, a `GET hosttype:` queued for it, `index++`.
The state is `(hosts, queued gets, index)`. -/
def hostsLoop (names : List String) :
    List String → Nat → GoMap String × List String × Nat →
      Outcome (GoMap String × List String × Nat)
  | [], _, st => .ok st
  | key :: keys, i, (hosts, gets, index) =>
    match names[i]? with
    | none => .panic
    | some name =>
      hostsLoop names keys (i + 1)
        (GoMap.set hosts key name, gets ++ ["hosttype:" ++ name], index + 1)

/-- Lines 173–178: every ID of one IP gets `names[index]` and a colon in front. -/
def prefixIDs (names : List String) : List String → Nat → Outcome (List String × Nat)
  | [], index => .ok ([], index)
  | id :: ids, index =>
    match names[index]? with
    | none => .panic
    | some hostName =>
      match prefixIDs names ids (index + 1) with
      | .ok (ids', index') => .ok ((hostName ++ ":" ++ id) :: ids', index')
      | .fail e => .fail e
      | .panic => .panic

/-- Lines 166–181: `ingesterTypes[key] = types[i]` and the rewrite of the IDs of `key`.
The state is `(mapOfIPAddresses, ingesterTypes, index)`. -/
def attachLoop (names types : List String) :
    List String → Nat → GoMap (List String) × GoMap String × Nat →
      Outcome (GoMap (List String) × GoMap String × Nat)
  | [], _, st => .ok st
  | key :: keys, i, (mapOfIPAddresses, ingesterTypes, index) =>
    match types[i]? with
    | none => .panic
    | some t =>
      match GoMap.get? mapOfIPAddresses key with
      | none =>
        attachLoop names types keys (i + 1)
          (mapOfIPAddresses, GoMap.set ingesterTypes key t, index)
      | some ids =>
        match prefixIDs names ids index with
        | .ok (ids', index') =>
          attachLoop names types keys (i + 1)
            (GoMap.set mapOfIPAddresses key ids', GoMap.set ingesterTypes key t, index')
        | .fail e => .fail e
        | .panic => .panic

/-- Lines 189–191 and 196–198: a name of at most one byte becomes `"unknown"`. -/
def orUnknown (name : String) : String := if len name ≤ 1 then "unknown" else name

/-- Lines 184–203: the loop that composes the label of every IP and stores its list. -/
def finalLoop (hosts ingesterTypes : GoMap String) :
    List (String × List String) → GoMap (List String) → GoMap (List String)
  | [], final => final
  | (k, v) :: rest, final =>
    match GoMap.get? hosts k with
    | none => finalLoop hosts ingesterTypes rest final
    | some hostName =>
      match GoMap.get? ingesterTypes k with
      | none => finalLoop hosts ingesterTypes rest final
      | some iType =>
        finalLoop hosts ingesterTypes rest
          (GoMap.set final (orUnknown hostName ++ " : " ++ k ++ " : " ++ orUnknown iType) v)

/-- `FetchAllCatchers` (lines 87–205). `redigo.Strings` gives a nil slice together with
a non-nil error, so after a failed stage-2 `EXEC` the replies `r` are empty. Both range
loops visit the keys in the order `ρ`; what the first one (line 130) collects is sorted
at once, and `sortStrings` gives one result for every order of its argument. -/
def FetchAllCatchers (c : Conn) (ρ : RangeOrder) : Outcome (GoMap (List String)) :=
  match c.connect with
  | .error e => .fail e
  | .ok _ =>
    match c.keys with
    | .error e => .fail e
    | .ok result =>
      if result.length = 0 then .ok []
      else
        let (r, err) : List String × Option Error :=
          match c.EXEC 2 result with
          | .ok r => (r, none)
          | .error e => ([], some e)
        match groupLoop result err r 0 [] with
        | .fail e => .fail e
        | .panic => .panic
        | .ok mapOfIPAddresses =>
          let keys := sortStrings ((GoMap.range ρ mapOfIPAddresses).map Prod.fst)
          match c.EXEC 3 (stage3Gets keys mapOfIPAddresses) with
          | .error e => .fail e
          | .ok names =>
            match hostsLoop names keys 0 ([], [], 0) with
            | .fail e => .fail e
            | .panic => .panic
            | .ok (hosts, gets, index) =>
              match c.EXEC 4 gets with
              | .error e => .fail e
              | .ok types =>
                match attachLoop names types keys 0 (mapOfIPAddresses, [], index) with
                | .fail e => .fail e
                | .panic => .panic
                | .ok (mapOfIPAddresses, ingesterTypes, _) =>
                  .ok (finalLoop hosts ingesterTypes (GoMap.range ρ mapOfIPAddresses) [])

/-! ## FetchIngesterHosts -/

/-- The struct `Station`. -/
structure Station where
  RawStreamID : String
  CallSign : String
  deriving DecidableEq, Repr

/-- The struct `IngesterHost`. -/
structure IngesterHost where
  IP : String
  «Type» : String
  Name : String
  Stations : List Station
  deriving DecidableEq, Repr

/-- `parseStation` (lines 234–242): `ar[0]` is the call sign and, when there are two
parts or more, `ar[1]` is the raw stream ID. -/
def parseStation (s : String) : Outcome Station :=
  let ar := Split s ':'
  match ar[0]? with
  | none => .panic
  | some callSign =>
    if ar.length ≥ 2 then
      match ar[1]? with
      | none => .panic
      | some rawStreamID => .ok { RawStreamID := rawStreamID, CallSign := callSign }
    else .ok { RawStreamID := "", CallSign := callSign }

/-- Lines 223–227: the stations of one host, parsed from its entries. -/
def stationsLoop : List String → List Station → Outcome (List Station)
  | [], stations => .ok stations
  | s :: v, stations =>
    match parseStation (TrimSpace (Replace s ".syncbak.corp" "" 2)) with
    | .ok station => stationsLoop v (stations ++ [station])
    | .fail e => .fail e
    | .panic => .panic

/-- Lines 214–230: the loop over the directory, which stops with an error at the first
label that does not split into three parts. -/
def hostsOfMap : List (String × List String) → List IngesterHost → Outcome (List IngesterHost)
  | [], arr => .ok arr
  | (k, v) :: rest, arr =>
    match Split k ':' with
    | [name, ip, type] =>
      match stationsLoop v [] with
      | .ok stations =>
        hostsOfMap rest (arr ++
          [{ IP := TrimSpace ip, «Type» := TrimSpace type, Name := TrimSpace name,
             Stations := stations }])
      | .fail e => .fail e
      | .panic => .panic
    | _ => .fail ("The key " ++ k ++ " should have had one colon!")

/-- `FetchIngesterHosts` (lines 208–232). -/
def FetchIngesterHosts (c : Conn) (ρ : RangeOrder) : Outcome (List IngesterHost) :=
  match FetchAllCatchers c ρ with
  | .fail e => .fail e
  | .panic => .panic
  | .ok cMap => hostsOfMap (GoMap.range ρ cMap) []

/-! ## The records of a snapshot and the closed forms of the loops -/

/-- The value of the stream record of `id`: the IP of the host that ingests it. -/
def Snapshot.ip (s : Snapshot) (id : String) : String := s.get (streamKeyPfx ++ id)

/-- The value of `hostlookup:<ip>`. -/
def Snapshot.hostname (s : Snapshot) (ip : String) : String := s.get ("hostlookup:" ++ ip)

/-- The value of `hosttype:<hostname>` for the hostname of `ip`. -/
def Snapshot.hostType (s : Snapshot) (ip : String) : String :=
  s.get ("hosttype:" ++ s.hostname ip)

/-- The value of `nameservice:activehost:<id>`. -/
def Snapshot.activeHost (s : Snapshot) (id : String) : String :=
  s.get ("nameservice:activehost:" ++ id)

/-- The map the stage-2 loop builds from the stream IDs `ids`, where `ip id` is the reply
for the key of `id`. -/
def groupIDs (ip : String → String) : List String → GoMap (List String) → GoMap (List String)
  | [], m => m
  | id :: ids, m =>
    groupIDs ip ids
      (GoMap.set m (ip id)
        (match GoMap.get? m (ip id) with
        | some mediaIDs => mediaIDs ++ [id]
        | none => [id]))

/-- What the loop of lines 166–181 leaves in `mapOfIPAddresses` and `ingesterTypes`
when the reply for the active host of `id` is `ah id` and the type reply for `key` is
`ty key`. -/
def attachAll (ah ty : String → String) :
    List String → GoMap (List String) × GoMap String → GoMap (List String) × GoMap String
  | [], st => st
  | key :: keys, (m, it) =>
    match GoMap.get? m key with
    | none => attachAll ah ty keys (m, GoMap.set it key (ty key))
    | some ids =>
      attachAll ah ty keys
        (GoMap.set m key (ids.map (fun id => ah id ++ ":" ++ id)), GoMap.set it key (ty key))

/-- The entry of a stream ID in the directory: what lines 174–176 make of it when the
reply `names[index]` is the value of `nameservice:activehost:<id>`. -/
def Snapshot.entry (s : Snapshot) (id : String) : String := s.activeHost id ++ ":" ++ id

/-- The label line 199 composes for an IP from the values of `hostlookup:<ip>` and of
`hosttype:<hostname>`. -/
def Snapshot.label (s : Snapshot) (ip : String) : String :=
  orUnknown (s.hostname ip) ++ " : " ++ ip ++ " : " ++ orUnknown (s.hostType ip)

/-- The directory of a snapshot: the stage-2 groups, visited in the order `ρ`, each
stored under the label of its IP with its stream IDs turned into entries. -/
def Snapshot.directory (s : Snapshot) (ρ : RangeOrder) : GoMap (List String) :=
  (GoMap.range ρ (groupIDs s.ip s.streamIDs [])).foldl
    (fun final kv => GoMap.set final (s.label kv.1) (kv.2.map s.entry)) []

/-- The stream IDs of a snapshot whose record holds the IP `ip`, in enumeration order. -/
def Snapshot.streamsOf (s : Snapshot) (ip : String) : List String :=
  s.streamIDs.filter (fun id => s.ip id = ip)

/-! ## Concrete stores -/

/-- The snapshot of a store that holds exactly the given records, whose stream keys
`KEYS` enumerates in the order of `streamIDs`. -/
def Snapshot.ofRecords (streamIDs : List String) (records : GoMap String) : Snapshot where
  streamIDs := streamIDs
  get := fun key => (GoMap.get? records key).getD ""

/-- The store of the end-to-end example: three streams on two IPs, a hostname and a host
type for `ip1` only. -/
def exampleStore : Snapshot :=
  Snapshot.ofRecords ["s1", "s2", "s3"]
    [("nameservice:stream:s1", "ip1"), ("nameservice:stream:s2", "ip1"),
     ("nameservice:stream:s3", "ip2"), ("hostlookup:ip1", "hostA"), ("hosttype:hostA", "720p")]

/-- A store with one stream whose IP resolves to a hostname and a host type. -/
def oneStreamStore : Snapshot :=
  Snapshot.ofRecords ["s1"]
    [("nameservice:stream:s1", "ip1"), ("hostlookup:ip1", "hostA"), ("hosttype:hostA", "720p")]

/-- A store in which two IPs, `"x : y"` and `"y"`, compose the same label
`"hh : x : y : tt"`, the first with the hostname `"hh"` and the second with the hostname
`"hh : x"`. -/
def sameLabelStore : Snapshot :=
  Snapshot.ofRecords ["s1", "s2"]
    [("nameservice:stream:s1", "x : y"), ("nameservice:stream:s2", "y"),
     ("hostlookup:x : y", "hh"), ("hosttype:hh", "tt"),
     ("hostlookup:y", "hh : x"), ("hosttype:hh : x", "tt")]

/-- A store with three streams on two IPs, both of which resolve to a hostname and a
host type. -/
def resolvedStore : Snapshot :=
  Snapshot.ofRecords ["s1", "s2", "s3"]
    [("nameservice:stream:s1", "ip1"), ("nameservice:stream:s2", "ip1"),
     ("nameservice:stream:s3", "ip2"), ("hostlookup:ip1", "hostA"), ("hosttype:hostA", "720p"),
     ("hostlookup:ip2", "hostB"), ("hosttype:hostB", "1080i"),
     ("nameservice:activehost:s1", "kaaa.syncbak.corp")]

/-- A store in which the IP `"a : b"`, which has no `hostlookup:` record, and the IP
`"b"`, whose hostname is `"unknown : a"`, compose the same label. -/
def unknownClashStore : Snapshot :=
  Snapshot.ofRecords ["s1", "s2"]
    [("nameservice:stream:s1", "a : b"), ("nameservice:stream:s2", "b"),
     ("hostlookup:b", "unknown : a")]

/-- A store with one stream whose active host is recorded. -/
def activeHostStore : Snapshot :=
  Snapshot.ofRecords ["s1"]
    [("nameservice:stream:s1", "ip1"), ("hostlookup:ip1", "hostA"), ("hosttype:hostA", "720p"),
     ("nameservice:activehost:s1", "kxyz.syncbak.corp")]

/-- The records of a store with two streams on one IP. -/
def twoStreamRecords : GoMap String :=
  [("nameservice:stream:s1", "ip1"), ("nameservice:stream:s2", "ip1"),
   ("hostlookup:ip1", "hostA"), ("hosttype:hostA", "720p")]

/-- A server on which the stage-2 transaction fails to decode (a stream key that holds
no string makes `redigo.Strings` return an error) while the connection stays usable:
the later, empty transactions succeed. -/
def stage2FailureConn : Conn where
  connect := .ok ()
  keys := .ok ["nameservice:stream:s1"]
  EXEC := fun stage gets =>
    if stage = 2 then .error "redigo: unexpected element type for Strings, got type redis.Error"
    else .ok (gets.map (fun _ => ""))

/-- The relation between a label and the host `FetchIngesterHosts` makes of it. -/
def HostOfLabel (label : String) (host : IngesterHost) : Prop :=
  ∃ name ip type, Split label ':' = [name, ip, type] ∧ host.Name = TrimSpace name ∧
    host.IP = TrimSpace ip ∧ host.«Type» = TrimSpace type

/-- A store whose only stream is ingested by a host with an IPv6 address. -/
def ipv6Store : Snapshot :=
  Snapshot.ofRecords ["s1"]
    [("nameservice:stream:s1", "fe80::1"), ("hostlookup:fe80::1", "hostA"),
     ("hosttype:hostA", "720p")]

/-- A server on which every key but the stream records has expired when stage 3 begins:
stage 2 answers `"ip1"` for every stream key and the later stages answer the empty
string for every key. -/
def expiringConn : Conn where
  connect := .ok ()
  keys := .ok ["nameservice:stream:s1", "nameservice:stream:s2"]
  EXEC := fun stage gets =>
    if stage = 2 then .ok (gets.map (fun _ => "ip1")) else .ok (gets.map (fun _ => ""))

/-- Lines 129–133: the IPs of the stage-2 map of a snapshot, sorted. -/
def Snapshot.sortedIPs (s : Snapshot) (ρ : RangeOrder) : List String :=
  sortStrings ((GoMap.range ρ (groupIDs s.ip s.streamIDs [])).map Prod.fst)

/-- Lines 140–145: the stream IDs in the order of their active-host requests, the lists
of the sorted IPs one after the other. -/
def Snapshot.requestedIDs (s : Snapshot) (ρ : RangeOrder) : List String :=
  (s.sortedIPs ρ).flatMap (fun k => (GoMap.get? (groupIDs s.ip s.streamIDs []) k).getD [])

/-- Line 146: the replies `names` of stage 3 on a snapshot, one per request and in the
order of the requests. -/
def Snapshot.names (s : Snapshot) (ρ : RangeOrder) : List String :=
  (stage3Gets (s.sortedIPs ρ) (groupIDs s.ip s.streamIDs [])).map s.get

/-- The label composed for the `i`-th of the sorted IPs `keys` when its hostname is the
reply `names[i]` and its host type is the value of `hosttype:<names[i]>`. -/
def Snapshot.labelAt (s : Snapshot) (keys names : List String) (i : Nat) : String :=
  orUnknown (names.getD i "") ++ " : " ++ keys.getD i "" ++ " : " ++
    orUnknown (s.get ("hosttype:" ++ names.getD i ""))

/-- The entries of the `i`-th of the sorted IPs `keys` when the reply in front of its
`p`-th stream ID is `names[len(keys) + o + p]`, where `o` counts the stream IDs of the
IPs before it. -/
def Snapshot.entriesAt (s : Snapshot) (keys names : List String) (i : Nat) : List String :=
  List.zipWith (fun name id => name ++ ":" ++ id)
    (names.drop (keys.length + ((keys.take i).flatMap s.streamsOf).length))
    (s.streamsOf (keys.getD i ""))

end controldb

/-!
# The dashboard: `cdnAdapters.go`, `transcoders.go`, `redirectDb.go` and `main.go`

A shallow embedding of `adapterAssignments`, `connectedTranscoders`, `redirectDb.streams`
and the count of `AdapterSlotsUsed` (package `main`).

* The search index is a record of replies (`Elastic`); `check(err)` panics on an error.
* `sort.Slice` is any sort that meets its contract (`SliceSort`): Go does not promise a
  stable one. What the library does is `Slice`, its pattern-defeating quicksort.
* A Go slice that may be nil is an `Option` of a list, `none` being the nil slice.
-/

namespace dashboard

open controldb

/-! ## The recency grouper -/

/-- Modelled from the spec: the type `elasticgo.Entry` is not among the sources. A
heartbeat record with the fields the program reads: `Timestamp` (an instant, counted in
nanoseconds), `Fields.SourceStreamID`, `Fields.IP` and `Fields.Host`. -/
structure Entry where
  Timestamp : Int
  SourceStreamID : String
  IP : String
  Host : String
  deriving DecidableEq, Repr

/-- The search index as one call sees it: the results of `NewFinderForCluster`, of
`f.Name("cdnadapter").Find()` (its `Entries`), of `NewClientForCluster`, of the build of
the filtered search client and of `transcoderClient.Entries()`. -/
structure Elastic where
  newFinder : Except Error Unit
  find : Except Error (List Entry)
  newClient : Except Error Unit
  build : Except Error Unit
  entries : Except Error (List Entry)

/-- The contract of `sort.Slice(res.Entries, less)` with `less(i, j)` the test
`res.Entries[i].Timestamp.After(res.Entries[j].Timestamp)`: the entries rearranged so
that no entry stands before a later one. The order of entries with equal timestamps is
not specified (`sort.Slice` is not guaranteed to be stable). -/
structure SliceSort where
  sort : List Entry → List Entry
  perm : ∀ l, (sort l).Perm l
  sorted : ∀ l, (sort l).Pairwise (fun a b => b.Timestamp ≤ a.Timestamp)

/-- The stable sort by descending timestamp: entries with equal timestamps keep their
input order. -/
def stableSort (l : List Entry) : List Entry :=
  l.insertionSort (fun a b => b.Timestamp ≤ a.Timestamp)

/-- A sort that keeps entries with equal timestamps in their input order. -/
def SliceSort.stable : SliceSort where
  sort := stableSort
  perm := fun l => List.perm_insertionSort _ l
  sorted := fun l =>
    haveI : IsTotal Entry (fun a b => b.Timestamp ≤ a.Timestamp) :=
      ⟨fun a b => le_total b.Timestamp a.Timestamp⟩
    haveI : IsTrans Entry (fun a b => b.Timestamp ≤ a.Timestamp) :=
      ⟨fun _ _ _ hab hbc => le_trans hbc hab⟩
    List.sorted_insertionSort _ l

/-! ## `sort.Slice` as the library implements it

The pattern-defeating quicksort of package `sort` (`pdqsort_func` and its helpers in
`zsortfunc.go`, `Slice` in `slice.go`; Go 1.19 and later), on the slice `res.Entries`
with the `less` of lines 24–26. A loop is a function with a bound on its rounds, which
the loop does not reach; every index the functions use lies within the slice. The step
`Next` of the pseudo-random generator `xorshift` of the library, which only
`breakPatterns_func` consults, is the parameter `next`. -/

/-- The function `less` of lines 24–26 at the indices `i` and `j`:
`data[i].Timestamp.After(data[j].Timestamp)`. -/
def Less (data : List Entry) (i j : Nat) : Bool :=
  match data[i]?, data[j]? with
  | some x, some y => decide (y.Timestamp < x.Timestamp)
  | _, _ => false

/-- The exchange `data.Swap(i, j)` of two elements of the slice. -/
def Swap (data : List Entry) (i j : Nat) : List Entry :=
  match data[i]?, data[j]? with
  | some x, some y => (data.set i y).set j x
  | _, _ => data

/-- The inner loop of `insertionSort_func`,
`for j := i; j > a && data.Less(j, j-1); j-- { data.Swap(j, j-1) }`, from `j` on. -/
def insertionShift (a : Nat) : Nat → List Entry → List Entry
  | 0, data => data
  | j + 1, data =>
    if a < j + 1 && Less data (j + 1) j then insertionShift a j (Swap data (j + 1) j)
    else data

/-- The outer loop of `insertionSort_func`, `for i := a + 1; i < b; i++`, from `i` on. -/
def insertionLoop (a b : Nat) : Nat → Nat → List Entry → List Entry
  | 0, _, data => data
  | n + 1, i, data =>
    if i < b then insertionLoop a b n (i + 1) (insertionShift a i data) else data

/-- `insertionSort_func(data, a, b)`: sorts `data[a:b]` by insertion. -/
def insertionSort_func (data : List Entry) (a b : Nat) : List Entry :=
  insertionLoop a b (b - a) (a + 1) data

/-- The loop of `siftDown_func`, from `root` on. -/
def siftDownLoop (hi first : Nat) : Nat → Nat → List Entry → List Entry
  | 0, _, data => data
  | n + 1, root, data =>
    let child := 2 * root + 1
    if child ≥ hi then data
    else
      let child :=
        if child + 1 < hi && Less data (first + child) (first + child + 1) then child + 1
        else child
      if !Less data (first + root) (first + child) then data
      else siftDownLoop hi first n child (Swap data (first + root) (first + child))

/-- `siftDown_func(data, lo, hi, first)`. -/
def siftDown_func (data : List Entry) (lo hi first : Nat) : List Entry :=
  siftDownLoop hi first hi lo data

/-- The first loop of `heapSort_func`, `for i := (hi - 1) / 2; i >= 0; i--`, from `i`
on. -/
def heapBuild (hi first : Nat) : Nat → List Entry → List Entry
  | 0, data => siftDown_func data 0 hi first
  | i + 1, data => heapBuild hi first i (siftDown_func data (i + 1) hi first)

/-- The second loop of `heapSort_func`, `for i := hi - 1; i >= 0; i--`, from `i` on. -/
def heapPop (first : Nat) : Nat → List Entry → List Entry
  | 0, data => siftDown_func (Swap data first first) 0 0 first
  | i + 1, data =>
    heapPop first i (siftDown_func (Swap data first (first + (i + 1))) 0 (i + 1) first)

/-- `heapSort_func(data, a, b)`; it is called on more than twelve elements only. -/
def heapSort_func (data : List Entry) (a b : Nat) : List Entry :=
  let first := a
  let hi := b - a
  heapPop first (hi - 1) (heapBuild hi first ((hi - 1) / 2) data)

/-- The type `sortedHint`. -/
inductive sortedHint where
  | unknownHint
  | increasingHint
  | decreasingHint
  deriving DecidableEq, Repr

/-- `order2_func(data, a, b, swaps)`; the third component is the counter `*swaps`. -/
def order2_func (data : List Entry) (a b swaps : Nat) : Nat × Nat × Nat :=
  if Less data b a then (b, a, swaps + 1) else (a, b, swaps)

/-- `median_func(data, a, b, c, swaps)`; the second component is the counter `*swaps`. -/
def median_func (data : List Entry) (a b c swaps : Nat) : Nat × Nat :=
  let (a, b, swaps) := order2_func data a b swaps
  let (b, _, swaps) := order2_func data b c swaps
  let (_, b, swaps) := order2_func data a b swaps
  (b, swaps)

/-- `medianAdjacent_func(data, a, swaps)`. -/
def medianAdjacent_func (data : List Entry) (a swaps : Nat) : Nat × Nat :=
  median_func data (a - 1) a (a + 1) swaps

/-- `choosePivot_func(data, a, b)`. -/
def choosePivot_func (data : List Entry) (a b : Nat) : Nat × sortedHint :=
  let l := b - a
  let i := a + l / 4 * 1
  let j := a + l / 4 * 2
  let k := a + l / 4 * 3
  let (j, swaps) :=
    if l ≥ 8 then
      if l ≥ 50 then
        let (i, swaps) := medianAdjacent_func data i 0
        let (j, swaps) := medianAdjacent_func data j swaps
        let (k, swaps) := medianAdjacent_func data k swaps
        median_func data i j k swaps
      else median_func data i j k 0
    else (j, 0)
  if swaps = 0 then (j, .increasingHint)
  else if swaps = 4 * 3 then (j, .decreasingHint)
  else (j, .unknownHint)

/-- The loop of `reverseRange_func`, `for i < j`. -/
def reverseLoop : Nat → List Entry → Nat → Nat → List Entry
  | 0, data, _, _ => data
  | n + 1, data, i, j =>
    if i < j then reverseLoop n (Swap data i j) (i + 1) (j - 1) else data

/-- `reverseRange_func(data, a, b)`. -/
def reverseRange_func (data : List Entry) (a b : Nat) : List Entry :=
  reverseLoop (b - a) data a (b - 1)

/-- The loop `for i < b && !data.Less(i, i-1) { i++ }` of `partialInsertionSort_func`. -/
def skipSorted (data : List Entry) (b : Nat) : Nat → Nat → Nat
  | 0, i => i
  | n + 1, i => if i < b && !Less data i (i - 1) then skipSorted data b n (i + 1) else i

/-- The loop `for j := i - 1; j >= 1; j--` of `partialInsertionSort_func`, from `j`
on. -/
def shiftSmaller : Nat → List Entry → List Entry
  | 0, data => data
  | j + 1, data =>
    if !Less data (j + 1) j then data else shiftSmaller j (Swap data (j + 1) j)

/-- The loop `for j := i + 1; j < b; j++` of `partialInsertionSort_func`, from `j` on. -/
def shiftGreater (b : Nat) : Nat → Nat → List Entry → List Entry
  | 0, _, data => data
  | n + 1, j, data =>
    if j < b then
      if !Less data j (j - 1) then data else shiftGreater b n (j + 1) (Swap data j (j - 1))
    else data

/-- The loop `for j := 0; j < maxSteps; j++` of `partialInsertionSort_func`, with
`steps` rounds left. -/
def partialInsertionLoop (a b : Nat) : Nat → Nat → List Entry → List Entry × Bool
  | 0, _, data => (data, false)
  | steps + 1, i, data =>
    let i := skipSorted data b (b - i) i
    if i = b then (data, true)
    else if b - a < 50 then (data, false)
    else
      let data := Swap data i (i - 1)
      let data := if i - a ≥ 2 then shiftSmaller (i - 1) data else data
      let data := if b - i ≥ 2 then shiftGreater b (b - i) (i + 1) data else data
      partialInsertionLoop a b steps i data

/-- `partialInsertionSort_func(data, a, b)`, with `maxSteps = 5` and
`shortestShifting = 50`; the second component is its result. -/
def partialInsertionSort_func (data : List Entry) (a b : Nat) : List Entry × Bool :=
  partialInsertionLoop a b 5 (a + 1) data

/-- A loop `for i <= j && p(i) { i++ }`. -/
def scanUp (p : Nat → Bool) (j : Nat) : Nat → Nat → Nat
  | 0, i => i
  | n + 1, i => if i ≤ j && p i then scanUp p j n (i + 1) else i

/-- A loop `for i <= j && p(j) { j-- }`, from `j` on; `i` is positive. -/
def scanDown (p : Nat → Bool) (i : Nat) : Nat → Nat
  | 0 => 0
  | j + 1 => if i ≤ j + 1 && p (j + 1) then scanDown p i j else j + 1

/-- The loop `for { … }` of `partitionEqual_func`. -/
def partitionEqualLoop (a : Nat) : Nat → List Entry → Nat → Nat → List Entry × Nat
  | 0, data, i, _ => (data, i)
  | n + 1, data, i, j =>
    let i := scanUp (fun i => !Less data a i) j (j + 1 - i) i
    let j := scanDown (fun j => Less data a j) i j
    if i > j then (data, i)
    else partitionEqualLoop a n (Swap data i j) (i + 1) (j - 1)

/-- `partitionEqual_func(data, a, b, pivot)`; the second component is `newpivot`. -/
def partitionEqual_func (data : List Entry) (a b pivot : Nat) : List Entry × Nat :=
  partitionEqualLoop a (b - a) (Swap data a pivot) (a + 1) (b - 1)

/-- The loop `for { … }` of `partition_func`. -/
def partitionLoop (a : Nat) : Nat → List Entry → Nat → Nat → List Entry × Nat
  | 0, data, _, j => (data, j)
  | n + 1, data, i, j =>
    let i := scanUp (fun i => Less data i a) j (j + 1 - i) i
    let j := scanDown (fun j => !Less data j a) i j
    if i > j then (data, j)
    else partitionLoop a n (Swap data i j) (i + 1) (j - 1)

/-- `partition_func(data, a, b, pivot)`; the other components are `newpivot` and
`alreadyPartitioned`. -/
def partition_func (data : List Entry) (a b pivot : Nat) : List Entry × Nat × Bool :=
  let data := Swap data a pivot
  let i := scanUp (fun i => Less data i a) (b - 1) (b - a) (a + 1)
  let j := scanDown (fun j => !Less data j a) i (b - 1)
  if i > j then (Swap data j a, j, true)
  else
    let (data, j) := partitionLoop a (b - a) (Swap data i j) (i + 1) (j - 1)
    (Swap data j a, j, false)

/-- The loop of `bits.Len`, with a bound on its rounds. -/
def bitsLenLoop : Nat → Nat → Nat
  | 0, _ => 0
  | n + 1, x => if x = 0 then 0 else bitsLenLoop n (x / 2) + 1

/-- `bits.Len(x)`: the number of bits of `x`. -/
def bitsLen (x : Nat) : Nat := bitsLenLoop x x

/-- `nextPowerOfTwo(length)`. -/
def nextPowerOfTwo (length : Nat) : Nat := 2 ^ bitsLen length

/-- The loop `for i := 0; i < 3; i++` of `breakPatterns_func`, with `n` rounds left;
`next` is the step `random.Next()` of the 64-bit generator. -/
def breakLoop (next : Nat → Nat) (a length modulus idx : Nat) :
    Nat → Nat → Nat → List Entry → List Entry
  | 0, _, _, data => data
  | n + 1, i, random, data =>
    let random := next random
    let other := Nat.land random (modulus - 1)
    let other := if other ≥ length then other - length else other
    breakLoop next a length modulus idx n (i + 1) random (Swap data (idx - 1 + i) (a + other))

/-- `breakPatterns_func(data, a, b)`. -/
def breakPatterns_func (next : Nat → Nat) (data : List Entry) (a b : Nat) : List Entry :=
  let length := b - a
  if length ≥ 8 then
    breakLoop next a length (nextPowerOfTwo length) (a + (length / 4) * 2 - 1) 3 0 length data
  else data

/-- `pdqsort_func(data, a, b, limit)` with `maxInsertion = 12`. The first argument bounds
the rounds of the loop and the depth of the calls, each of which shortens `data[a:b]`;
the last two are the variables `wasBalanced` and `wasPartitioned`. -/
def pdqsort_func (next : Nat → Nat) :
    Nat → List Entry → Nat → Nat → Nat → Bool → Bool → List Entry
  | 0, data, _, _, _, _, _ => data
  | n + 1, data, a, b, limit, wasBalanced, wasPartitioned =>
    let length := b - a
    if length ≤ 12 then insertionSort_func data a b
    else if limit = 0 then heapSort_func data a b
    else
      let (data, limit) :=
        if !wasBalanced then (breakPatterns_func next data a b, limit - 1) else (data, limit)
      let (pivot, hint) := choosePivot_func data a b
      let (data, pivot, hint) :=
        if hint = .decreasingHint then
          (reverseRange_func data a b, (b - 1) - (pivot - a), sortedHint.increasingHint)
        else (data, pivot, hint)
      let (data, sorted) :=
        if wasBalanced && wasPartitioned && hint = .increasingHint then
          partialInsertionSort_func data a b
        else (data, false)
      if sorted then data
      else if a > 0 && !Less data (a - 1) pivot then
        let (data, mid) := partitionEqual_func data a b pivot
        pdqsort_func next n data mid b limit wasBalanced wasPartitioned
      else
        let (data, mid, alreadyPartitioned) := partition_func data a b pivot
        let leftLen := mid - a
        let rightLen := b - mid
        let balanceThreshold := length / 8
        if leftLen < rightLen then
          pdqsort_func next n (pdqsort_func next n data a mid limit true true) (mid + 1) b limit
            (leftLen ≥ balanceThreshold) alreadyPartitioned
        else
          pdqsort_func next n (pdqsort_func next n data (mid + 1) b limit true true) a mid limit
            (rightLen ≥ balanceThreshold) alreadyPartitioned

/-- `sort.Slice(res.Entries, less)` (`slice.go`): `pdqsort_func` on the whole slice with
`limit = bits.Len(length)`, for the generator step `next`. -/
def Slice (next : Nat → Nat) (x : List Entry) : List Entry :=
  pdqsort_func next (x.length + 1) x 0 x.length (bitsLen x.length) true true

/-! ## `adapterAssignments` -/

/-- Lines 28–33 of `cdnAdapters.go`: the first entry seen for every source stream ID. -/
def firstSeen : List Entry → GoMap Entry → GoMap Entry
  | [], em => em
  | b :: rest, em =>
    match GoMap.get? em b.SourceStreamID with
    | some _ => firstSeen rest em
    | none => firstSeen rest (GoMap.set em b.SourceStreamID b)

/-- Lines 35–43 of `cdnAdapters.go`: every source stream ID is appended to the list of
the IP of its entry. -/
def assignLoop : List (String × Entry) → GoMap (List String) → GoMap (List String)
  | [], hosts => hosts
  | (ssid, entry) :: rest, hosts =>
    match GoMap.get? hosts entry.IP with
    | none => assignLoop rest (GoMap.set hosts entry.IP [ssid])
    | some queues => assignLoop rest (GoMap.set hosts entry.IP (queues ++ [ssid]))

/-- `adapterAssignments` (lines 15–45 of `cdnAdapters.go`), with the sort of line 24 as
the parameter `sort`. -/
def adapterAssignmentsWith (x : Elastic) (sort : List Entry → List Entry) (ρ : RangeOrder) :
    Outcome (GoMap (List String)) :=
  match x.newFinder with
  | .error _ => .panic
  | .ok _ =>
    match x.find with
    | .error _ => .panic
    | .ok entries =>
      let em := firstSeen (sort entries) []
      .ok (assignLoop (GoMap.range ρ em) [])

/-- `adapterAssignments` with a sort that meets the contract of `sort.Slice`. -/
def adapterAssignments (x : Elastic) (σ : SliceSort) (ρ : RangeOrder) :
    Outcome (GoMap (List String)) :=
  adapterAssignmentsWith x σ.sort ρ

/-- Lines 107–110 of `main.go`, in `AdapterSlotsUsed`: the sum of the lengths of the
lists. -/
def slotsUsed (ρ : RangeOrder) (vals : GoMap (List String)) : Nat :=
  (GoMap.range ρ vals).foldl (fun count kv => count + kv.2.length) 0

/-- Lines 34–40 of `transcoders.go`: a host not yet in the map gets the placeholder. -/
def checkerLoop : List Entry → GoMap (List String) → GoMap (List String)
  | [], checkerMap => checkerMap
  | entry :: rest, checkerMap =>
    match GoMap.get? checkerMap entry.Host with
    | some _ => checkerLoop rest checkerMap
    | none => checkerLoop rest (GoMap.set checkerMap entry.Host ["Various"])

/-- `connectedTranscoders` (lines 22–42 of `transcoders.go`). -/
def connectedTranscoders (x : Elastic) : Outcome (GoMap (List String)) :=
  match x.newClient with
  | .error _ => .panic
  | .ok _ =>
    match x.build with
    | .error _ => .panic
    | .ok _ =>
      match x.entries with
      | .error _ => .panic
      | .ok entries => .ok (checkerLoop entries [])

/-! ## The redirects -/

/-- The struct `Redirect`; `Timestamp` is an instant, counted in nanoseconds. -/
structure Redirect where
  Streams : Int
  Max : Int
  Host : String
  Timestamp : Int
  deriving DecidableEq, Repr

/-- The store and the surroundings of one call of `redirectDb.streams`: the result of
`db.connect()`, of `redis.ByteSlices(conn.Do("HGETALL", key))` (the field names and
the values of the hash, alternating), what `json.Unmarshal` makes of a value, and the
reading of the clock. -/
structure RedirectStore where
  connect : Except Error Unit
  hgetall : Except Error (List String)
  unmarshal : String → Except Error Redirect
  now : Int

/-- The duration `2*time.Minute`, in nanoseconds. -/
def twoMinutes : Int := 120000000000

/-- Lines 50–62 of `redirectDb.go`: the loop over the reply; `redirects` is `none` as
long as the slice is nil. -/
def streamsLoop (unmarshal : String → Except Error Redirect) (now : Int) :
    List String → Nat → Option (List Redirect) → Option (List Redirect)
  | [], _, redirects => redirects
  | val :: vals, i, redirects =>
    if i % 2 = 1 then
      match unmarshal val with
      | .error _ => streamsLoop unmarshal now vals (i + 1) redirects
      | .ok s =>
        if now - s.Timestamp < twoMinutes then
          streamsLoop unmarshal now vals (i + 1) (some (redirects.getD [] ++ [s]))
        else streamsLoop unmarshal now vals (i + 1) redirects
    else streamsLoop unmarshal now vals (i + 1) redirects

/-- `redirectDb.streams` (lines 41–64 of `redirectDb.go`); the result `none` is the nil
slice. -/
def streams (db : RedirectStore) : Outcome (Option (List Redirect)) :=
  match db.connect with
  | .error _ => .panic
  | .ok _ =>
    match db.hgetall with
    | .error _ => .panic
    | .ok vals => .ok (streamsLoop db.unmarshal db.now vals 0 none)

/-! ## Concrete inputs -/

/-- A search index that answers every search with the entries `l`. -/
def elasticOf (l : List Entry) : Elastic where
  newFinder := .ok ()
  find := .ok l
  newClient := .ok ()
  build := .ok ()
  entries := .ok l

/-- The heartbeats of the end-to-end example. -/
def exampleHeartbeats : List Entry :=
  [{ Timestamp := 10, SourceStreamID := "A", IP := "H1", Host := "H1" },
   { Timestamp := 20, SourceStreamID := "A", IP := "H1", Host := "H1" },
   { Timestamp := 15, SourceStreamID := "B", IP := "H2", Host := "H2" }]

/-- Thirteen heartbeats: twelve of the source stream `A` with one timestamp, the first
from `H1` and the others from `H2`, and then a later one of the source stream `B`. -/
def tiedHeartbeats : List Entry :=
  { Timestamp := 20, SourceStreamID := "A", IP := "H1", Host := "H1" } ::
    List.replicate 11 { Timestamp := 20, SourceStreamID := "A", IP := "H2", Host := "H2" } ++
    [{ Timestamp := 30, SourceStreamID := "B", IP := "H3", Host := "H3" }]

/-- A reachable store whose redirect hash is empty. -/
def emptyRedirectStore : RedirectStore where
  connect := .ok ()
  hgetall := .ok []
  unmarshal := fun _ => .error "unexpected end of JSON input"
  now := 0

end dashboard

namespace controldb

/-! ## Facts about maps -/

theorem GoMap.get?_set {V : Type} (m : GoMap V) (k k' : String) (v : V) :
    GoMap.get? (GoMap.set m k v) k' = if k' = k then some v else GoMap.get? m k' := by
  induction m with
  | nil => simp [GoMap.set, GoMap.get?]
  | cons kv t ih =>
    obtain ⟨k0, v0⟩ := kv
    by_cases h : k = k0
    · subst h
      by_cases h' : k' = k <;> simp [GoMap.set, GoMap.get?, h']
    · by_cases h' : k' = k
      · subst h'
        simp [GoMap.set, GoMap.get?, h, ih]
      · simp [GoMap.set, GoMap.get?, h, ih, h']

theorem GoMap.get?_eq_none_iff {V : Type} (m : GoMap V) (k : String) :
    GoMap.get? m k = none ↔ k ∉ GoMap.keys m := by
  induction m with
  | nil => simp [GoMap.get?, GoMap.keys]
  | cons kv t ih =>
    obtain ⟨k0, v0⟩ := kv
    by_cases h : k = k0
    · simp [GoMap.get?, GoMap.keys, h]
    · simpa [GoMap.get?, GoMap.keys, h] using ih

theorem GoMap.mem_keys_iff {V : Type} (m : GoMap V) (k : String) :
    k ∈ GoMap.keys m ↔ ∃ v, GoMap.get? m k = some v := by
  constructor
  · intro h
    cases hg : GoMap.get? m k with
    | none => exact absurd h ((GoMap.get?_eq_none_iff m k).1 hg)
    | some v => exact ⟨v, rfl⟩
  · rintro ⟨v, hv⟩
    by_contra hn
    rw [(GoMap.get?_eq_none_iff m k).2 hn] at hv
    cases hv

theorem GoMap.keys_set {V : Type} (m : GoMap V) (k : String) (v : V) :
    GoMap.keys (GoMap.set m k v) =
      if k ∈ GoMap.keys m then GoMap.keys m else GoMap.keys m ++ [k] := by
  induction m with
  | nil => simp [GoMap.set, GoMap.keys]
  | cons kv t ih =>
    obtain ⟨k0, v0⟩ := kv
    by_cases h : k = k0
    · simp [GoMap.set, GoMap.keys, h]
    · have ih' := ih
      simp only [GoMap.keys] at ih'
      by_cases hm : k ∈ List.map Prod.fst t
      · simp [GoMap.set, GoMap.keys, h, hm, ih']
      · simp [GoMap.set, GoMap.keys, h, hm, ih']

theorem GoMap.nodup_keys_set {V : Type} (m : GoMap V) (k : String) (v : V)
    (h : (GoMap.keys m).Nodup) : (GoMap.keys (GoMap.set m k v)).Nodup := by
  rw [GoMap.keys_set]
  split
  · exact h
  · rename_i hk
    exact List.Nodup.append h (List.nodup_singleton k) (by simpa using hk)

theorem GoMap.mem_keys_set {V : Type} (m : GoMap V) (k k' : String) (v : V) :
    k' ∈ GoMap.keys (GoMap.set m k v) ↔ k' = k ∨ k' ∈ GoMap.keys m := by
  rw [GoMap.keys_set]
  split
  · rename_i hk
    constructor
    · exact Or.inr
    · rintro (rfl | h)
      · exact hk
      · exact h
  · simp [or_comm]

/-! ## Facts about Go strings -/

theorem TrimPrefix_append (p s : String) : TrimPrefix (p ++ s) p = s := by
  have h : HasPrefix (p ++ s) p = true := by
    simp [HasPrefix, String.data_append]
  simp [TrimPrefix, h, String.data_append]

/-! ## The stage-2 grouping -/

theorem groupLoop_snapshot (s : Snapshot) (ids done : List String) (m : GoMap (List String)) :
    groupLoop ((done ++ ids).map (fun id => streamKeyPfx ++ id)) none
        (ids.map (fun id => s.get (streamKeyPfx ++ id))) done.length m
      = .ok (groupIDs s.ip ids m) := by
  induction ids generalizing done m with
  | nil => simp [groupLoop, groupIDs]
  | cons id ids ih =>
    have hget : (List.map (fun id => streamKeyPfx ++ id) (done ++ id :: ids))[done.length]?
        = some (streamKeyPfx ++ id) := by
      rw [List.map_append, List.getElem?_append_right (by simp)]
      simp
    have := ih (done ++ [id])
    simp only [List.append_assoc, List.singleton_append, List.length_append,
      List.length_singleton] at this
    simp only [List.map_cons, groupLoop, hget, TrimPrefix_append, groupIDs, Snapshot.ip]
    exact this _

theorem groupIDs_get? (ip : String → String) (ids : List String) (m : GoMap (List String))
    (k : String) :
    GoMap.get? (groupIDs ip ids m) k =
      if ids.filter (fun id => ip id = k) = [] then GoMap.get? m k
      else some ((GoMap.get? m k).getD [] ++ ids.filter (fun id => ip id = k)) := by
  induction ids generalizing m with
  | nil => simp [groupIDs]
  | cons id ids ih =>
    rw [groupIDs, ih, GoMap.get?_set]
    by_cases h : ip id = k
    · subst h
      cases hg : GoMap.get? m (ip id) <;>
        by_cases hf : ids.filter (fun x => ip x = ip id) = [] <;>
        simp [hg, hf, List.filter_cons]
    · have h' : ¬ k = ip id := fun e => h e.symm
      simp [h, h', List.filter_cons]

theorem groupIDs_nodup (ip : String → String) (ids : List String) (m : GoMap (List String))
    (h : (GoMap.keys m).Nodup) : (GoMap.keys (groupIDs ip ids m)).Nodup := by
  induction ids generalizing m with
  | nil => simpa [groupIDs] using h
  | cons id ids ih =>
    rw [groupIDs]
    exact ih _ (GoMap.nodup_keys_set _ _ _ h)

/-! ## The loops of stages 3 and 4 on positionally aligned replies -/

theorem getElem?_mid (pre post : List String) (x : String) :
    (pre ++ x :: post)[pre.length]? = some x := by
  rw [List.getElem?_append_right (by simp)]
  simp

theorem hostsLoop_eq (hn : String → String) (ks pre post : List String)
    (hosts : GoMap String) (gets : List String) (index : Nat) :
    hostsLoop (pre ++ (ks.map hn ++ post)) ks pre.length (hosts, gets, index)
      = .ok (ks.foldl (fun h k => GoMap.set h k (hn k)) hosts,
          gets ++ ks.map (fun k => "hosttype:" ++ hn k), index + ks.length) := by
  induction ks generalizing pre hosts gets index with
  | nil => simp [hostsLoop]
  | cons k ks ih =>
    have h := ih (pre ++ [hn k]) (GoMap.set hosts k (hn k)) (gets ++ ["hosttype:" ++ hn k])
      (index + 1)
    have e : index + 1 + ks.length = index + (ks.length + 1) := by omega
    simp only [List.append_assoc, List.singleton_append, List.length_append,
      List.length_singleton, e] at h
    simp only [List.map_cons, List.cons_append, hostsLoop, getElem?_mid,
      List.foldl_cons, List.length_cons, h]

theorem prefixIDs_eq (ah : String → String) (ids pre post : List String) :
    prefixIDs (pre ++ (ids.map ah ++ post)) ids pre.length
      = .ok (ids.map (fun id => ah id ++ ":" ++ id), pre.length + ids.length) := by
  induction ids generalizing pre with
  | nil => simp [prefixIDs]
  | cons id ids ih =>
    have h := ih (pre ++ [ah id])
    have e : pre.length + 1 + ids.length = pre.length + (ids.length + 1) := by omega
    simp only [List.append_assoc, List.singleton_append, List.length_append,
      List.length_singleton, e] at h
    simp only [List.map_cons, List.cons_append, prefixIDs, getElem?_mid, h,
      List.length_cons]

theorem flatMap_get?_set (ah : String → String) (m : GoMap (List String)) (k : String)
    (v : List String) (ks : List String) (hk : k ∉ ks) :
    ks.flatMap (fun k' => ((GoMap.get? (GoMap.set m k v) k').getD []).map ah)
      = ks.flatMap (fun k' => ((GoMap.get? m k').getD []).map ah) := by
  induction ks with
  | nil => rfl
  | cons a as iha =>
    have ha : a ≠ k := fun e => hk (by simp [e])
    have has : k ∉ as := fun e => hk (by simp [e])
    rw [List.flatMap_cons, List.flatMap_cons, iha has, GoMap.get?_set, if_neg ha]

theorem attachLoop_eq (ah ty : String → String) (ks : List String) (hnd : ks.Nodup)
    (pre post tpre tpost : List String) (m : GoMap (List String)) (it : GoMap String) :
    ∃ idx, attachLoop
        (pre ++ (ks.flatMap (fun k => ((GoMap.get? m k).getD []).map ah) ++ post))
        (tpre ++ (ks.map ty ++ tpost)) ks tpre.length (m, it, pre.length)
      = .ok ((attachAll ah ty ks (m, it)).1, (attachAll ah ty ks (m, it)).2, idx) := by
  induction ks generalizing pre tpre m it with
  | nil => exact ⟨pre.length, by simp [attachLoop, attachAll]⟩
  | cons k ks ih =>
    have hk : k ∉ ks := (List.nodup_cons.1 hnd).1
    have hks : ks.Nodup := (List.nodup_cons.1 hnd).2
    cases hg : GoMap.get? m k with
    | none =>
      obtain ⟨idx, h⟩ := ih hks pre (tpre ++ [ty k]) m (GoMap.set it k (ty k))
      refine ⟨idx, ?_⟩
      simp only [List.append_assoc, List.singleton_append, List.length_append,
        List.length_singleton] at h
      simp only [List.map_cons, List.cons_append, attachLoop, getElem?_mid, hg, attachAll,
        List.flatMap_cons, Option.getD_none, List.map_nil, List.nil_append, h]
    | some ids =>
      obtain ⟨idx, h⟩ := ih hks (pre ++ ids.map ah) (tpre ++ [ty k])
        (GoMap.set m k (ids.map (fun id => ah id ++ ":" ++ id))) (GoMap.set it k (ty k))
      refine ⟨idx, ?_⟩
      rw [flatMap_get?_set ah m k _ ks hk] at h
      simp only [List.append_assoc, List.singleton_append, List.length_append,
        List.length_singleton, List.length_map] at h
      simp only [List.map_cons, List.cons_append, attachLoop, getElem?_mid, hg, attachAll,
        List.flatMap_cons, Option.getD_some, List.append_assoc, prefixIDs_eq, h]

theorem foldl_set_get? (f : String → String) (ks : List String) (hosts : GoMap String)
    (k : String) :
    GoMap.get? (ks.foldl (fun h k => GoMap.set h k (f k)) hosts) k
      = if k ∈ ks then some (f k) else GoMap.get? hosts k := by
  induction ks generalizing hosts with
  | nil => simp
  | cons a as ih =>
    rw [List.foldl_cons, ih, GoMap.get?_set]
    by_cases h : k ∈ as
    · simp [h]
    · by_cases h' : k = a
      · simp [h']
      · simp [h, h']

theorem attachAll_snd_get? (ah ty : String → String) (ks : List String)
    (m : GoMap (List String)) (it : GoMap String) (k : String) :
    GoMap.get? (attachAll ah ty ks (m, it)).2 k
      = if k ∈ ks then some (ty k) else GoMap.get? it k := by
  induction ks generalizing m it with
  | nil => simp [attachAll]
  | cons a as ih =>
    rw [attachAll]
    cases hg : GoMap.get? m a <;>
    · simp only [ih, GoMap.get?_set]
      by_cases h : k ∈ as
      · simp [h]
      · by_cases h' : k = a
        · simp [h']
        · simp [h, h']

theorem attachAll_fst_keys (ah ty : String → String) (ks : List String)
    (m : GoMap (List String)) (it : GoMap String) :
    GoMap.keys (attachAll ah ty ks (m, it)).1 = GoMap.keys m := by
  induction ks generalizing m it with
  | nil => simp [attachAll]
  | cons a as ih =>
    rw [attachAll]
    cases hg : GoMap.get? m a with
    | none => simp only [ih]
    | some ids =>
      simp only [ih, GoMap.keys_set]
      rw [if_pos ((GoMap.mem_keys_iff m a).2 ⟨ids, hg⟩)]

theorem attachAll_fst_get? (ah ty : String → String) (ks : List String) (hnd : ks.Nodup)
    (m : GoMap (List String)) (it : GoMap String) (k : String) :
    GoMap.get? (attachAll ah ty ks (m, it)).1 k
      = if k ∈ ks then (GoMap.get? m k).map (List.map (fun id => ah id ++ ":" ++ id))
        else GoMap.get? m k := by
  induction ks generalizing m it with
  | nil => simp [attachAll]
  | cons a as ih =>
    have ha : a ∉ as := (List.nodup_cons.1 hnd).1
    have has : as.Nodup := (List.nodup_cons.1 hnd).2
    rw [attachAll]
    cases hg : GoMap.get? m a with
    | none =>
      simp only [ih has]
      by_cases h : k ∈ as
      · simp [h]
      · by_cases h' : k = a
        · simp [h', ha, hg]
        · simp [h, h']
    | some ids =>
      simp only [ih has, GoMap.get?_set]
      by_cases h' : k = a
      · simp [h', ha, hg]
      · by_cases h : k ∈ as
        · simp [h, h']
        · simp [h, h']

theorem finalLoop_eq (hn ty : String → String) (hosts it : GoMap String)
    (l : List (String × List String)) (final : GoMap (List String))
    (h : ∀ kv ∈ l, GoMap.get? hosts kv.1 = some (hn kv.1) ∧ GoMap.get? it kv.1 = some (ty kv.1)) :
    finalLoop hosts it l final
      = l.foldl (fun final kv =>
          GoMap.set final (orUnknown (hn kv.1) ++ " : " ++ kv.1 ++ " : " ++ orUnknown (ty kv.1))
            kv.2) final := by
  induction l generalizing final with
  | nil => simp [finalLoop]
  | cons kv rest ih =>
    obtain ⟨k, v⟩ := kv
    have hk := h (k, v) (by simp)
    simp only [finalLoop, hk.1, hk.2, List.foldl_cons]
    exact ih _ (fun kv hkv => h kv (by simp [hkv]))

theorem GoMap.range_map_fst {V : Type} (ρ : RangeOrder) (m : GoMap V) :
    (GoMap.range ρ m).map Prod.fst = ρ.order (GoMap.keys m) := by
  have hmem : ∀ k ∈ ρ.order (GoMap.keys m), ∃ v, GoMap.get? m k = some v :=
    fun k hk => (GoMap.mem_keys_iff m k).1 ((ρ.perm _).mem_iff.1 hk)
  unfold GoMap.range
  generalize ρ.order (GoMap.keys m) = l at hmem
  induction l with
  | nil => rfl
  | cons a as ih =>
    obtain ⟨v, hv⟩ := hmem a (by simp)
    simp only [List.filterMap_cons, hv, Option.map_some', List.map_cons]
    rw [ih (fun k hk => hmem k (by simp [hk]))]

theorem GoMap.mem_range {V : Type} (ρ : RangeOrder) (m : GoMap V) (k : String) (v : V) :
    (k, v) ∈ GoMap.range ρ m ↔ GoMap.get? m k = some v := by
  unfold GoMap.range
  rw [List.mem_filterMap]
  constructor
  · rintro ⟨a, _, ha⟩
    cases hg : GoMap.get? m a with
    | none => simp [hg] at ha
    | some w =>
      simp only [hg, Option.map_some', Option.some.injEq, Prod.mk.injEq] at ha
      rw [← ha.1, ← ha.2, hg]
  · intro h
    exact ⟨k, (ρ.perm _).mem_iff.2 ((GoMap.mem_keys_iff m k).2 ⟨v, h⟩), by simp [h]⟩

theorem range_attachAll (ah ty : String → String) (ρ : RangeOrder) (ks : List String)
    (hnd : ks.Nodup) (m : GoMap (List String)) (it : GoMap String)
    (hall : ∀ k ∈ GoMap.keys m, k ∈ ks) :
    GoMap.range ρ (attachAll ah ty ks (m, it)).1
      = (GoMap.range ρ m).map (fun kv => (kv.1, kv.2.map (fun id => ah id ++ ":" ++ id))) := by
  unfold GoMap.range
  rw [attachAll_fst_keys, List.map_filterMap]
  apply List.filterMap_congr
  intro k hk
  have hk' : k ∈ ks := hall k ((ρ.perm _).mem_iff.1 hk)
  rw [attachAll_fst_get? ah ty ks hnd, if_pos hk']
  cases GoMap.get? m k <;> simp

theorem sortStrings_perm (l : List String) : (sortStrings l).Perm l :=
  List.perm_insertionSort _ l

theorem stage3Gets_map (s : Snapshot) (keys : List String) (m : GoMap (List String)) :
    (stage3Gets keys m).map s.get
      = [] ++ (keys.map s.hostname
          ++ (keys.flatMap (fun k => ((GoMap.get? m k).getD []).map s.activeHost) ++ [])) := by
  simp only [stage3Gets, List.map_append, List.map_map, List.map_flatMap, Function.comp_def,
    List.nil_append, List.append_nil]
  rfl

theorem FetchAllCatchers_snapshot (s : Snapshot) (ρ : RangeOrder) :
    FetchAllCatchers s.conn ρ = .ok (s.directory ρ) := by
  unfold FetchAllCatchers Snapshot.directory
  simp only [Snapshot.conn]
  by_cases hids : s.streamIDs = []
  · have hr : GoMap.range ρ (groupIDs s.ip [] []) = [] := by
      have := (ρ.perm []).eq_nil
      simp [GoMap.range, groupIDs, GoMap.keys, this]
    simp [hids, hr]
  · have hlen : ¬ (s.streamIDs.map (fun id => streamKeyPfx ++ id)).length = 0 := by
      simpa using hids
    rw [if_neg hlen]
    have hgl := groupLoop_snapshot s s.streamIDs [] []
    simp only [List.nil_append, List.length_nil] at hgl
    simp only [List.map_map, Function.comp_def, hgl]
    have hnd0 : (GoMap.keys (groupIDs s.ip s.streamIDs [])).Nodup :=
      groupIDs_nodup _ _ _ (by simp [GoMap.keys])
    generalize groupIDs s.ip s.streamIDs [] = m0 at hnd0 ⊢
    rw [GoMap.range_map_fst]
    have hperm : (sortStrings (ρ.order (GoMap.keys m0))).Perm (GoMap.keys m0) :=
      (sortStrings_perm _).trans (ρ.perm _)
    generalize sortStrings (ρ.order (GoMap.keys m0)) = keys at hperm ⊢
    have hnd : keys.Nodup := hperm.nodup_iff.2 hnd0
    rw [stage3Gets_map]
    have hh := hostsLoop_eq s.hostname keys []
      (keys.flatMap (fun k => ((GoMap.get? m0 k).getD []).map s.activeHost) ++ []) [] [] 0
    simp only [List.length_nil] at hh
    rw [hh]
    have htypes : List.map s.get (keys.map (fun k => "hosttype:" ++ s.hostname k))
        = [] ++ (keys.map s.hostType ++ []) := by
      simp only [List.nil_append, List.append_nil, List.map_map, Function.comp_def]
      rfl
    obtain ⟨idx, ha⟩ := attachLoop_eq s.activeHost s.hostType keys hnd (keys.map s.hostname) []
      [] [] m0 []
    simp only [List.length_map, List.length_nil] at ha
    simp only [List.nil_append, Nat.zero_add]
    rw [htypes, ha]
    simp only []
    have hall : ∀ k ∈ GoMap.keys m0, k ∈ keys := fun k hk => hperm.mem_iff.2 hk
    rw [range_attachAll s.activeHost s.hostType ρ keys hnd m0 [] hall]
    rw [finalLoop_eq s.hostname s.hostType, List.foldl_map]
    · rfl
    · intro kv hkv
      obtain ⟨kv0, hkv0, rfl⟩ := List.mem_map.1 hkv
      have hk : kv0.1 ∈ keys := by
        apply hall
        exact (GoMap.mem_keys_iff m0 kv0.1).2 ⟨kv0.2, (GoMap.mem_range ρ m0 kv0.1 kv0.2).1 hkv0⟩
      simp only [foldl_set_get?, attachAll_snd_get?, hk, if_true, and_self]

/-! ## The order of `sort.Strings` -/

theorem lexLT_asymm (a b : List Char) (h : lexLT a b = true) : lexLT b a = false := by
  induction a generalizing b with
  | nil => cases b <;> simp [lexLT] at h ⊢
  | cons x xs ih =>
    cases b with
    | nil => simp [lexLT] at h
    | cons y ys =>
      simp only [lexLT, Bool.or_eq_true, Bool.and_eq_true, decide_eq_true_eq] at h
      simp only [lexLT, Bool.or_eq_false_iff, Bool.and_eq_false_imp, decide_eq_false_iff_not,
        decide_eq_true_eq]
      rcases h with h | ⟨h1, h2⟩
      · exact ⟨by omega, fun e => by omega⟩
      · exact ⟨by omega, fun _ => ih ys h2⟩

theorem lexLT_connected (a b : List Char) (h1 : lexLT a b = false) (h2 : lexLT b a = false) :
    a = b := by
  induction a generalizing b with
  | nil => cases b <;> simp [lexLT] at h1 ⊢
  | cons x xs ih =>
    cases b with
    | nil => simp [lexLT] at h2
    | cons y ys =>
      simp only [lexLT, Bool.or_eq_false_iff, Bool.and_eq_false_imp, decide_eq_false_iff_not,
        decide_eq_true_eq] at h1 h2
      have hxy : x.toNat = y.toNat := by omega
      have hc : x = y :=
        calc x = Char.ofNat x.toNat := (Char.ofNat_toNat x).symm
          _ = Char.ofNat y.toNat := by rw [hxy]
          _ = y := Char.ofNat_toNat y
      subst hc
      rw [ih ys (h1.2 rfl) (h2.2 rfl)]

theorem lexLT_negTrans (a b c : List Char) (h : lexLT c a = true) :
    lexLT c b = true ∨ lexLT b a = true := by
  induction c generalizing a b with
  | nil =>
    cases a with
    | nil => simp [lexLT] at h
    | cons x xs =>
      cases b with
      | nil => right; simp [lexLT]
      | cons y ys => left; simp [lexLT]
  | cons z zs ih =>
    cases a with
    | nil => simp [lexLT] at h
    | cons x xs =>
      cases b with
      | nil => right; simp [lexLT]
      | cons y ys =>
        simp only [lexLT, Bool.or_eq_true, Bool.and_eq_true, decide_eq_true_eq] at h ⊢
        rcases h with h | ⟨h1, h2⟩
        · by_cases hzy : z.toNat < y.toNat
          · exact Or.inl (Or.inl hzy)
          · by_cases hyx : y.toNat < x.toNat
            · exact Or.inr (Or.inl hyx)
            · omega
        · by_cases hzy : z.toNat < y.toNat
          · exact Or.inl (Or.inl hzy)
          · by_cases hyz : y.toNat < z.toNat
            · exact Or.inr (Or.inl (by omega))
            · have e : z.toNat = y.toNat := by omega
              rcases ih xs ys h2 with h' | h'
              · exact Or.inl (Or.inr ⟨e, h'⟩)
              · exact Or.inr (Or.inr ⟨by omega, h'⟩)

theorem sortStrings_sorted (l : List String) :
    (sortStrings l).Sorted (fun a b => lexLT b.data a.data = false) := by
  haveI : IsTotal String (fun a b => lexLT b.data a.data = false) :=
    ⟨fun a b => by
      cases h : lexLT b.data a.data with
      | false => exact Or.inl rfl
      | true => exact Or.inr (lexLT_asymm _ _ h)⟩
  haveI : IsTrans String (fun a b => lexLT b.data a.data = false) :=
    ⟨fun a b c hab hbc => by
      cases h : lexLT c.data a.data with
      | false => rfl
      | true =>
        rcases lexLT_negTrans a.data b.data c.data h with h' | h'
        · rw [h'] at hbc; cases hbc
        · rw [h'] at hab; cases hab⟩
  exact List.sorted_insertionSort _ l

theorem sortStrings_eq_of_perm (l₁ l₂ : List String) (h : l₁.Perm l₂) :
    sortStrings l₁ = sortStrings l₂ := by
  haveI : IsAntisymm String (fun a b => lexLT b.data a.data = false) :=
    ⟨fun a b hab hba => String.ext (lexLT_connected _ _ hba hab)⟩
  exact List.eq_of_perm_of_sorted
    (((sortStrings_perm l₁).trans h).trans (sortStrings_perm l₂).symm)
    (sortStrings_sorted l₁) (sortStrings_sorted l₂)

/-! ## Reading the directory of a snapshot -/

theorem groupIDs_nil_get? (ip : String → String) (ids : List String) (k : String)
    (v : List String) :
    GoMap.get? (groupIDs ip ids []) k = some v
      ↔ v = ids.filter (fun id => ip id = k) ∧ v ≠ [] := by
  rw [groupIDs_get?]
  by_cases h : ids.filter (fun id => ip id = k) = []
  · simp only [h, if_true, GoMap.get?]
    constructor
    · intro h'; cases h'
    · rintro ⟨h1, h2⟩; exact absurd h1 h2
  · simp only [h, if_false, GoMap.get?, Option.getD_none, List.nil_append, Option.some.injEq]
    constructor
    · intro h'; subst h'; exact ⟨rfl, h⟩
    · rintro ⟨h1, _⟩; exact h1.symm

theorem foldl_set_ne {α V : Type} (lab : α → String) (val : α → V) (l : List α)
    (final : GoMap V) (L : String) (h : ∀ a ∈ l, lab a ≠ L) :
    GoMap.get? (l.foldl (fun f a => GoMap.set f (lab a) (val a)) final) L
      = GoMap.get? final L := by
  induction l generalizing final with
  | nil => rfl
  | cons x rest ih =>
    rw [List.foldl_cons, ih _ (fun a ha => h a (by simp [ha])), GoMap.get?_set,
      if_neg (fun e => h x (by simp) e.symm)]

theorem foldl_set_sound {α V : Type} (lab : α → String) (val : α → V) (l : List α)
    (final : GoMap V) (L : String) (v : V)
    (h : GoMap.get? (l.foldl (fun f a => GoMap.set f (lab a) (val a)) final) L = some v) :
    (∃ a ∈ l, lab a = L ∧ val a = v) ∨ GoMap.get? final L = some v := by
  induction l generalizing final with
  | nil => exact Or.inr h
  | cons x rest ih =>
    rw [List.foldl_cons] at h
    rcases ih _ h with ⟨a, ha, hl, hv⟩ | h'
    · exact Or.inl ⟨a, by simp [ha], hl, hv⟩
    · rw [GoMap.get?_set] at h'
      by_cases e : L = lab x
      · rw [if_pos e] at h'
        exact Or.inl ⟨x, by simp, e.symm, Option.some.inj h'⟩
      · rw [if_neg e] at h'
        exact Or.inr h'

theorem foldl_set_present {α V : Type} (lab : α → String) (val : α → V) (l : List α)
    (final : GoMap V) (L : String) (h : ∃ a ∈ l, lab a = L) :
    ∃ a' ∈ l, lab a' = L ∧
      GoMap.get? (l.foldl (fun f a => GoMap.set f (lab a) (val a)) final) L
        = some (val a') := by
  induction l generalizing final with
  | nil =>
    obtain ⟨a, ha, _⟩ := h
    cases ha
  | cons x rest ih =>
    by_cases hex : ∃ b ∈ rest, lab b = L
    · obtain ⟨a', ha', hl', hg⟩ := ih (GoMap.set final (lab x) (val x)) hex
      exact ⟨a', by simp [ha'], hl', by rw [List.foldl_cons]; exact hg⟩
    · have hne : ∀ b ∈ rest, lab b ≠ L := fun b hb e => hex ⟨b, hb, e⟩
      obtain ⟨a, ha, hla⟩ := h
      have hax : a = x := by
        rcases List.mem_cons.1 ha with h | h
        · exact h
        · exact absurd hla (hne a h)
      subst hax
      refine ⟨a, by simp, hla, ?_⟩
      rw [List.foldl_cons, foldl_set_ne lab val rest _ _ hne, GoMap.get?_set, if_pos hla.symm]

theorem foldl_set_fresh {α V : Type} (lab : α → String) (val : α → V) (l : List α)
    (final : GoMap V) (hnd : (l.map lab).Nodup) (hfresh : ∀ a ∈ l, lab a ∉ GoMap.keys final) :
    l.foldl (fun f a => GoMap.set f (lab a) (val a)) final
      = final ++ l.map (fun a => (lab a, val a)) := by
  induction l generalizing final with
  | nil => simp
  | cons x rest ih =>
    have hx : lab x ∉ rest.map lab := (List.nodup_cons.1 hnd).1
    have hrest : (rest.map lab).Nodup := (List.nodup_cons.1 hnd).2
    have hset : GoMap.set final (lab x) (val x) = final ++ [(lab x, val x)] := by
      have hk := hfresh x (by simp)
      clear ih hfresh
      induction final with
      | nil => rfl
      | cons kv t iht =>
        obtain ⟨k0, v0⟩ := kv
        have hne : lab x ≠ k0 := fun e => hk (by simp [GoMap.keys, e])
        have ht : lab x ∉ GoMap.keys t := fun e => hk (by simp [GoMap.keys] at e ⊢; simp [e])
        simp only [GoMap.set, hne, if_false, List.cons_append, iht ht]
    rw [List.foldl_cons, ih _ hrest, hset]
    · simp
    · intro a ha
      rw [GoMap.mem_keys_set]
      rintro (e | e)
      · exact hx (List.mem_map.2 ⟨a, ha, e⟩)
      · exact hfresh a (by simp [ha]) e

theorem mem_range_groupIDs (s : Snapshot) (ρ : RangeOrder) (kv : String × List String) :
    kv ∈ GoMap.range ρ (groupIDs s.ip s.streamIDs [])
      ↔ kv.2 = s.streamsOf kv.1 ∧ kv.2 ≠ [] := by
  obtain ⟨k, v⟩ := kv
  rw [GoMap.mem_range, groupIDs_nil_get?]
  rfl

theorem streamsOf_ne_nil (s : Snapshot) (id : String) (h : id ∈ s.streamIDs) :
    s.streamsOf (s.ip id) ≠ [] := by
  intro e
  have : id ∈ s.streamsOf (s.ip id) := by
    simp [Snapshot.streamsOf, List.mem_filter, h]
  rw [e] at this
  cases this

theorem exists_of_streamsOf_ne_nil (s : Snapshot) (k : String) (h : s.streamsOf k ≠ []) :
    ∃ id ∈ s.streamIDs, s.ip id = k := by
  obtain ⟨id, hid⟩ := List.exists_mem_of_ne_nil _ h
  simp only [Snapshot.streamsOf, List.mem_filter, decide_eq_true_eq] at hid
  exact ⟨id, hid.1, hid.2⟩

theorem dir_sound (s : Snapshot) (ρ : RangeOrder) (L : String) (es : List String)
    (h : GoMap.get? (s.directory ρ) L = some es) :
    ∃ id ∈ s.streamIDs, L = s.label (s.ip id) ∧ es = (s.streamsOf (s.ip id)).map s.entry := by
  rcases foldl_set_sound (fun kv : String × List String => s.label kv.1)
      (fun kv => kv.2.map s.entry) _ [] L es h with ⟨kv, hkv, hl, hv⟩ | h'
  · obtain ⟨h1, h2⟩ := (mem_range_groupIDs s ρ kv).1 hkv
    rw [h1] at h2
    obtain ⟨id, hid, hip⟩ := exists_of_streamsOf_ne_nil s kv.1 h2
    refine ⟨id, hid, ?_, ?_⟩
    · rw [hip]; exact hl.symm
    · rw [hip, ← h1]; exact hv.symm
  · cases h'

theorem dir_present (s : Snapshot) (ρ : RangeOrder) (id : String) (hid : id ∈ s.streamIDs) :
    ∃ id' ∈ s.streamIDs, s.label (s.ip id') = s.label (s.ip id) ∧
      GoMap.get? (s.directory ρ) (s.label (s.ip id))
        = some ((s.streamsOf (s.ip id')).map s.entry) := by
  have hmem : (s.ip id, s.streamsOf (s.ip id)) ∈ GoMap.range ρ (groupIDs s.ip s.streamIDs []) :=
    (mem_range_groupIDs s ρ _).2 ⟨rfl, streamsOf_ne_nil s id hid⟩
  obtain ⟨kv, hkv, hl, hg⟩ := foldl_set_present (fun kv : String × List String => s.label kv.1)
    (fun kv => kv.2.map s.entry) _ [] (s.label (s.ip id)) ⟨_, hmem, rfl⟩
  obtain ⟨h1, h2⟩ := (mem_range_groupIDs s ρ kv).1 hkv
  rw [h1] at h2
  obtain ⟨id', hid', hip⟩ := exists_of_streamsOf_ne_nil s kv.1 h2
  refine ⟨id', hid', ?_, ?_⟩
  · rw [hip]; exact hl
  · rw [hip, ← h1]; exact hg

theorem dir_complete (s : Snapshot) (ρ : RangeOrder)
    (hinj : ∀ a ∈ s.streamIDs, ∀ b ∈ s.streamIDs,
      s.label (s.ip a) = s.label (s.ip b) → s.ip a = s.ip b)
    (id : String) (hid : id ∈ s.streamIDs) :
    GoMap.get? (s.directory ρ) (s.label (s.ip id))
      = some ((s.streamsOf (s.ip id)).map s.entry) := by
  obtain ⟨id', hid', hl, hg⟩ := dir_present s ρ id hid
  rw [hg, hinj id' hid' id hid hl]

/-! ## The lists of a directory taken together -/

theorem GoMap.get?_of_mem {V : Type} (m : GoMap V) (hnd : (GoMap.keys m).Nodup)
    (k : String) (v : V) (h : (k, v) ∈ m) : GoMap.get? m k = some v := by
  induction m with
  | nil => cases h
  | cons kv t ih =>
    obtain ⟨k0, v0⟩ := kv
    have hk0 : k0 ∉ GoMap.keys t := (List.nodup_cons.1 hnd).1
    have ht : (GoMap.keys t).Nodup := (List.nodup_cons.1 hnd).2
    rcases List.mem_cons.1 h with e | e
    · injection e with e1 e2
      subst e1 e2
      simp [GoMap.get?]
    · have hne : k ≠ k0 := by
        rintro rfl
        exact hk0 (List.mem_map.2 ⟨(k, v), e, rfl⟩)
      simp only [GoMap.get?, hne, if_false]
      exact ih ht e

theorem GoMap.range_perm {V : Type} (ρ : RangeOrder) (m : GoMap V)
    (hnd : (GoMap.keys m).Nodup) : (GoMap.range ρ m).Perm m := by
  have h1 : (GoMap.range ρ m).Perm
      ((GoMap.keys m).filterMap (fun k => (GoMap.get? m k).map (fun v => (k, v)))) :=
    (ρ.perm _).filterMap _
  refine h1.trans (List.Perm.of_eq ?_)
  unfold GoMap.keys
  rw [List.filterMap_map]
  have : ∀ kv ∈ m, ((fun k => (GoMap.get? m k).map (fun v => (k, v))) ∘ Prod.fst) kv
      = some kv := by
    intro kv hkv
    obtain ⟨k, v⟩ := kv
    simp [GoMap.get?_of_mem m hnd k v hkv]
  rw [List.filterMap_congr this, List.filterMap_some]

theorem flatten_set_append (m : GoMap (List String)) (k id : String) :
    ((GoMap.set m k
        (match GoMap.get? m k with
        | some mediaIDs => mediaIDs ++ [id]
        | none => [id])).flatMap Prod.snd).Perm (m.flatMap Prod.snd ++ [id]) := by
  induction m with
  | nil => simp [GoMap.set, GoMap.get?]
  | cons kv t ih =>
    obtain ⟨k0, v0⟩ := kv
    by_cases h : k = k0
    · subst h
      simp only [GoMap.get?, GoMap.set, if_true, List.flatMap_cons, List.append_assoc]
      exact List.Perm.append_left _ List.perm_append_comm
    · simp only [GoMap.get?, GoMap.set, h, if_false, List.flatMap_cons, List.append_assoc]
      exact List.Perm.append_left _ ih

theorem groupIDs_flatten (ip : String → String) (ids : List String) (m : GoMap (List String)) :
    ((groupIDs ip ids m).flatMap Prod.snd).Perm (m.flatMap Prod.snd ++ ids) := by
  induction ids generalizing m with
  | nil => simp [groupIDs]
  | cons id ids ih =>
    rw [groupIDs]
    refine (ih _).trans ?_
    refine ((flatten_set_append m (ip id) id).append_right ids).trans ?_
    simp

theorem dir_eq (s : Snapshot) (ρ : RangeOrder)
    (hinj : ∀ a ∈ s.streamIDs, ∀ b ∈ s.streamIDs,
      s.label (s.ip a) = s.label (s.ip b) → s.ip a = s.ip b) :
    s.directory ρ = (GoMap.range ρ (groupIDs s.ip s.streamIDs [])).map
      (fun kv => (s.label kv.1, kv.2.map s.entry)) := by
  unfold Snapshot.directory
  rw [foldl_set_fresh (fun kv : String × List String => s.label kv.1)
    (fun kv => kv.2.map s.entry)]
  · simp
  · have hnd : ((GoMap.range ρ (groupIDs s.ip s.streamIDs [])).map Prod.fst).Nodup := by
      rw [GoMap.range_map_fst]
      exact (ρ.perm _).nodup_iff.2 (groupIDs_nodup _ _ _ (by simp [GoMap.keys]))
    have : (GoMap.range ρ (groupIDs s.ip s.streamIDs [])).map (fun kv => s.label kv.1)
        = ((GoMap.range ρ (groupIDs s.ip s.streamIDs [])).map Prod.fst).map s.label := by
      simp
    rw [this]
    refine List.Nodup.map_on ?_ hnd
    intro x hx y hy hxy
    obtain ⟨kx, hkx, rfl⟩ := List.mem_map.1 hx
    obtain ⟨ky, hky, rfl⟩ := List.mem_map.1 hy
    obtain ⟨h1, h2⟩ := (mem_range_groupIDs s ρ kx).1 hkx
    obtain ⟨h3, h4⟩ := (mem_range_groupIDs s ρ ky).1 hky
    rw [h1] at h2
    rw [h3] at h4
    obtain ⟨a, ha, hia⟩ := exists_of_streamsOf_ne_nil s _ h2
    obtain ⟨b, hb, hib⟩ := exists_of_streamsOf_ne_nil s _ h4
    rw [← hia, ← hib] at hxy ⊢
    exact hinj a ha b hb hxy
  · intro a _
    simp [GoMap.keys]

theorem dir_flatten (s : Snapshot) (ρ : RangeOrder)
    (hinj : ∀ a ∈ s.streamIDs, ∀ b ∈ s.streamIDs,
      s.label (s.ip a) = s.label (s.ip b) → s.ip a = s.ip b) :
    ((s.directory ρ).flatMap Prod.snd).Perm (s.streamIDs.map s.entry) := by
  rw [dir_eq s ρ hinj]
  have hnd : (GoMap.keys (groupIDs s.ip s.streamIDs [])).Nodup :=
    groupIDs_nodup _ _ _ (by simp [GoMap.keys])
  have h1 : ((GoMap.range ρ (groupIDs s.ip s.streamIDs [])).flatMap Prod.snd).Perm
      s.streamIDs := by
    refine ((GoMap.range_perm ρ _ hnd).flatMap_right _).trans ?_
    simpa using groupIDs_flatten s.ip s.streamIDs []
  have h2 : ((GoMap.range ρ (groupIDs s.ip s.streamIDs [])).map
        (fun kv => (s.label kv.1, kv.2.map s.entry))).flatMap Prod.snd
      = ((GoMap.range ρ (groupIDs s.ip s.streamIDs [])).flatMap Prod.snd).map s.entry := by
    rw [List.flatMap_map, List.map_flatMap]
  rw [h2]
  exact h1.map _

theorem dir_keys_nodup (s : Snapshot) (ρ : RangeOrder) : (GoMap.keys (s.directory ρ)).Nodup := by
  unfold Snapshot.directory
  generalize GoMap.range ρ (groupIDs s.ip s.streamIDs []) = l
  have : ∀ final : GoMap (List String), (GoMap.keys final).Nodup →
      (GoMap.keys (l.foldl (fun final kv => GoMap.set final (s.label kv.1) (kv.2.map s.entry))
        final)).Nodup := by
    induction l with
    | nil => exact fun final h => h
    | cons x rest ih => exact fun final h => ih _ (GoMap.nodup_keys_set _ _ _ h)
  exact this [] (by simp [GoMap.keys])

theorem orUnknown_of_two_le (x : String) (h : 2 ≤ len x) : orUnknown x = x := by
  unfold orUnknown
  rw [if_neg (by omega)]

theorem label_of_resolved (s : Snapshot) (ip : String) (h1 : 2 ≤ len (s.hostname ip))
    (h2 : 2 ≤ len (s.hostType ip)) :
    s.label ip = s.hostname ip ++ " : " ++ ip ++ " : " ++ s.hostType ip := by
  unfold Snapshot.label
  rw [orUnknown_of_two_le _ h1, orUnknown_of_two_le _ h2]

theorem orUnknown_eq (x : String) : orUnknown x = if len x < 2 then "unknown" else x := by
  unfold orUnknown
  by_cases h : len x ≤ 1
  · rw [if_pos h, if_pos (by omega)]
  · rw [if_neg h, if_neg (by omega)]

/-! ## Splitting labels and entries -/

theorem splitChars_ne_nil (sep : Char) (l : List Char) : splitChars sep l ≠ [] := by
  cases l with
  | nil => simp [splitChars]
  | cons c cs =>
    unfold splitChars
    split
    · simp
    · split <;> simp

theorem splitChars_length (sep : Char) (l : List Char) :
    (splitChars sep l).length = l.count sep + 1 := by
  induction l with
  | nil => simp [splitChars]
  | cons c cs ih =>
    unfold splitChars
    by_cases h : c = sep
    · subst h
      simp [ih]
    · rw [if_neg h, List.count_cons_of_ne (Ne.symm h), ← ih]
      cases hs : splitChars sep cs with
      | nil => exact absurd hs (splitChars_ne_nil sep cs)
      | cons p ps => simp

theorem Split_length (s : String) (sep : Char) :
    (Split s sep).length = s.data.count sep + 1 := by
  simp [Split, splitChars_length]

theorem parseStation_ok (s : String) : ∃ st, parseStation s = .ok st := by
  unfold parseStation
  cases hs : Split s ':' with
  | nil =>
    have := Split_length s ':'
    rw [hs] at this
    simp at this
  | cons a rest =>
    cases rest with
    | nil => exact ⟨{ RawStreamID := "", CallSign := a }, by simp⟩
    | cons b rest' => exact ⟨{ RawStreamID := b, CallSign := a }, by simp⟩

theorem stationsLoop_ok (v : List String) (stations : List Station) :
    ∃ sts, stationsLoop v stations = .ok sts := by
  induction v generalizing stations with
  | nil => exact ⟨stations, rfl⟩
  | cons s v ih =>
    obtain ⟨st, hst⟩ := parseStation_ok (TrimSpace (Replace s ".syncbak.corp" "" 2))
    obtain ⟨sts, hsts⟩ := ih (stations ++ [st])
    exact ⟨sts, by simp only [stationsLoop, hst, hsts]⟩

theorem Split_three (k : String) (h : k.data.count ':' = 2) :
    ∃ a b c, Split k ':' = [a, b, c] := by
  have hl := Split_length k ':'
  rw [h] at hl
  match hs : Split k ':' with
  | [] => rw [hs] at hl; simp at hl
  | [_] => rw [hs] at hl; simp at hl
  | [_, _] => rw [hs] at hl; simp at hl
  | [a, b, c] => exact ⟨a, b, c, rfl⟩
  | _ :: _ :: _ :: _ :: _ => rw [hs] at hl; simp at hl

theorem hostsOfMap_fail (l : List (String × List String)) (arr : List IngesterHost)
    (h : ∃ kv ∈ l, kv.1.data.count ':' ≠ 2) : ∃ e, hostsOfMap l arr = .fail e := by
  induction l generalizing arr with
  | nil =>
    obtain ⟨kv, hkv, _⟩ := h
    cases hkv
  | cons x rest ih =>
    obtain ⟨k, v⟩ := x
    by_cases hk : k.data.count ':' = 2
    · obtain ⟨a, b, c, hs⟩ := Split_three k hk
      obtain ⟨sts, hsts⟩ := stationsLoop_ok v []
      have hrest : ∃ kv ∈ rest, kv.1.data.count ':' ≠ 2 := by
        obtain ⟨kv, hkv, hne⟩ := h
        rcases List.mem_cons.1 hkv with e | e
        · subst e
          exact absurd hk hne
        · exact ⟨kv, e, hne⟩
      obtain ⟨e, he⟩ := ih (arr ++
        [{ IP := TrimSpace b, «Type» := TrimSpace c, Name := TrimSpace a, Stations := sts }]) hrest
      exact ⟨e, by simp only [hostsOfMap, hs, hsts, he]⟩
    · have hl := Split_length k ':'
      refine ⟨"The key " ++ k ++ " should have had one colon!", ?_⟩
      unfold hostsOfMap
      split
      · rename_i name ip type hs
        rw [hs] at hl
        simp at hl
        omega
      · rfl

theorem hostsOfMap_ok (l : List (String × List String)) (arr : List IngesterHost)
    (h : ∀ kv ∈ l, kv.1.data.count ':' = 2) :
    ∃ hosts, hostsOfMap l arr = .ok (arr ++ hosts) ∧
      List.Forall₂ HostOfLabel (l.map Prod.fst) hosts := by
  induction l generalizing arr with
  | nil => exact ⟨[], by simp [hostsOfMap], List.Forall₂.nil⟩
  | cons x rest ih =>
    obtain ⟨k, v⟩ := x
    obtain ⟨a, b, c, hs⟩ := Split_three k (h (k, v) (by simp))
    obtain ⟨sts, hsts⟩ := stationsLoop_ok v []
    obtain ⟨hosts, hh, hf⟩ := ih
      (arr ++ [{ IP := TrimSpace b, «Type» := TrimSpace c, Name := TrimSpace a, Stations := sts }])
      (fun kv hkv => h kv (by simp [hkv]))
    refine ⟨{ IP := TrimSpace b, «Type» := TrimSpace c, Name := TrimSpace a, Stations := sts }
      :: hosts, ?_, List.Forall₂.cons ⟨a, b, c, hs, rfl, rfl, rfl⟩ hf⟩
    simp only [hostsOfMap, hs, hsts, hh, List.append_assoc, List.singleton_append]

theorem count_colon_orUnknown (x : String) (h : ':' ∉ x.data) :
    (orUnknown x).data.count ':' = 0 := by
  unfold orUnknown
  split
  · decide
  · exact List.count_eq_zero.2 h

theorem count_colon_label (s : Snapshot) (ip : String) (h1 : ':' ∉ ip.data)
    (h2 : ':' ∉ (s.hostname ip).data) (h3 : ':' ∉ (s.hostType ip).data) :
    (s.label ip).data.count ':' = 2 := by
  have e : (" : " : String).data.count ':' = 1 := by decide
  simp only [Snapshot.label, String.data_append, List.count_append,
    count_colon_orUnknown _ h2, count_colon_orUnknown _ h3, List.count_eq_zero.2 h1, e]

/-! ## Maps under a change of their values, and the key spaces -/

theorem splitChars_eq (sep : Char) (l : List Char) :
    splitChars sep l = l.takeWhile (fun c => c ≠ sep) ::
      (match l.dropWhile (fun c => c ≠ sep) with
      | [] => []
      | _ :: rest => splitChars sep rest) := by
  induction l with
  | nil => simp [splitChars]
  | cons c cs ih =>
    by_cases h : c = sep
    · subst h
      simp [splitChars]
    · rw [splitChars, if_neg h, ih]
      simp [List.takeWhile_cons, List.dropWhile_cons, h]

/-! ## How a failure of each stage ends the call -/

theorem connect_failure_aborts (c : Conn) (ρ : RangeOrder) (e : Error)
    (hc : c.connect = .error e) : FetchAllCatchers c ρ = .fail e := by
  simp only [FetchAllCatchers, hc]

theorem keys_failure_aborts (c : Conn) (ρ : RangeOrder) (e : Error)
    (hc : c.connect = .ok ()) (hk : c.keys = .error e) : FetchAllCatchers c ρ = .fail e := by
  simp only [FetchAllCatchers, hc, hk]

theorem stage3_failure_aborts (c : Conn) (ρ : RangeOrder) (e : Error)
    (result r : List String) (m : GoMap (List String))
    (hc : c.connect = .ok ()) (hk : c.keys = .ok result) (hne : result ≠ [])
    (h2 : c.EXEC 2 result = .ok r) (hg : groupLoop result none r 0 [] = .ok m)
    (h3 : c.EXEC 3 (stage3Gets (sortStrings ((GoMap.range ρ m).map Prod.fst)) m) = .error e) :
    FetchAllCatchers c ρ = .fail e := by
  have hlen : ¬ result.length = 0 := by simpa using hne
  simp only [FetchAllCatchers, hc, hk, hlen, if_false, h2, hg, h3]

theorem stage4_failure_aborts (c : Conn) (ρ : RangeOrder) (e : Error)
    (result r names gets : List String) (m : GoMap (List String)) (hosts : GoMap String)
    (index : Nat)
    (hc : c.connect = .ok ()) (hk : c.keys = .ok result) (hne : result ≠ [])
    (h2 : c.EXEC 2 result = .ok r) (hg : groupLoop result none r 0 [] = .ok m)
    (h3 : c.EXEC 3 (stage3Gets (sortStrings ((GoMap.range ρ m).map Prod.fst)) m) = .ok names)
    (hh : hostsLoop names (sortStrings ((GoMap.range ρ m).map Prod.fst)) 0 ([], [], 0)
      = .ok (hosts, gets, index))
    (h4 : c.EXEC 4 gets = .error e) :
    FetchAllCatchers c ρ = .fail e := by
  have hlen : ¬ result.length = 0 := by simpa using hne
  simp only [FetchAllCatchers, hc, hk, hlen, if_false, h2, hg, h3, hh, h4]

theorem stage2_failure_swallowed (c : Conn) (ρ : RangeOrder) (e : Error) (result : List String)
    (hc : c.connect = .ok ()) (hk : c.keys = .ok result) (hne : result ≠ [])
    (h2 : c.EXEC 2 result = .error e) (h3 : c.EXEC 3 [] = .ok []) (h4 : c.EXEC 4 [] = .ok []) :
    FetchAllCatchers c ρ = .ok [] := by
  have hlen : ¬ result.length = 0 := by simpa using hne
  have h := (ρ.perm []).eq_nil
  simp [FetchAllCatchers, hc, hk, hlen, h2, groupLoop, GoMap.range, GoMap.keys, h, sortStrings,
    stage3Gets, h3, hostsLoop, h4, attachLoop, finalLoop]

/-! ## C1: the end-to-end example -/

/-- C1, as stated, fails: on the example store the result is not the map
`{"hostA:ip1:720p": ["s1","s2"], "unknown:ip2:unknown": ["s3"]}`; it has no label
`"hostA:ip1:720p"` at all. -/
theorem example_directory_not_as_claimed :
    ¬ ∃ m, FetchAllCatchers exampleStore.conn RangeOrder.asStored = .ok m ∧
      ∀ label, GoMap.get? m label
        = GoMap.get? [("hostA:ip1:720p", ["s1", "s2"]), ("unknown:ip2:unknown", ["s3"])] label := by
  rintro ⟨m, hm, h⟩
  have hv : FetchAllCatchers exampleStore.conn RangeOrder.asStored
      = .ok [("hostA : ip1 : 720p", [":s1", ":s2"]), ("unknown : ip2 : unknown", [":s3"])] := by
    decide
  rw [hv] at hm
  injection hm with hm
  subst hm
  exact absurd (h "hostA:ip1:720p") (by decide)

/-- C1, amended: on the example store, with the stream keys enumerated in the order
`s1, s2, s3`, `FetchAllCatchers` returns, whatever the order of its range loops, exactly
the map `{"hostA : ip1 : 720p": [":s1", ":s2"], "unknown : ip2 : unknown": [":s3"]}`: the
labels are joined by `" : "` and every entry is the stream ID behind the (here missing,
so empty) active-host value and a colon. -/
theorem example_directory (ρ : RangeOrder) :
    ∃ m, FetchAllCatchers exampleStore.conn ρ = .ok m ∧
      ∀ label, GoMap.get? m label
        = GoMap.get?
            [("hostA : ip1 : 720p", [":s1", ":s2"]), ("unknown : ip2 : unknown", [":s3"])]
            label := by
  refine ⟨_, FetchAllCatchers_snapshot _ ρ, fun label => ?_⟩
  have hinj : ∀ a ∈ exampleStore.streamIDs, ∀ b ∈ exampleStore.streamIDs,
      exampleStore.label (exampleStore.ip a) = exampleStore.label (exampleStore.ip b) →
        exampleStore.ip a = exampleStore.ip b := by decide
  have h1 : exampleStore.label (exampleStore.ip "s1") = "hostA : ip1 : 720p" := by decide
  have h3 : exampleStore.label (exampleStore.ip "s3") = "unknown : ip2 : unknown" := by decide
  have e1 : (exampleStore.streamsOf (exampleStore.ip "s1")).map exampleStore.entry
      = [":s1", ":s2"] := by decide
  have e3 : (exampleStore.streamsOf (exampleStore.ip "s3")).map exampleStore.entry
      = [":s3"] := by decide
  have c1 := dir_complete exampleStore ρ hinj "s1" (by decide)
  have c3 := dir_complete exampleStore ρ hinj "s3" (by decide)
  rw [h1, e1] at c1
  rw [h3, e3] at c3
  by_cases hl1 : label = "hostA : ip1 : 720p"
  · subst hl1
    rw [c1]
    decide
  · by_cases hl3 : label = "unknown : ip2 : unknown"
    · subst hl3
      rw [c3]
      decide
    · have hnone : GoMap.get? (exampleStore.directory ρ) label = none := by
        cases hg : GoMap.get? (exampleStore.directory ρ) label with
        | none => rfl
        | some es =>
          exfalso
          obtain ⟨id, hid, hl, _⟩ := dir_sound exampleStore ρ label es hg
          have hcases : id = "s1" ∨ id = "s2" ∨ id = "s3" := by
            simpa [exampleStore, Snapshot.ofRecords] using hid
          rcases hcases with rfl | rfl | rfl
          · exact hl1 (hl.trans h1)
          · exact hl1 (hl.trans (by decide))
          · exact hl3 (hl.trans h3)
      rw [hnone]
      simp [GoMap.get?, hl1, hl3]

/-! ## C2: every stream is listed once -/

/-- C2, as stated, fails. On a store whose only stream `s1` resolves fully, the stream
ID `s1` is in no list of the result (the list holds the entry `":s1"`); and on a store
in which two IPs compose the same label, the range order that visits the keys as stored
leaves the entry of `s1` in no list either, the second IP having overwritten the first. -/
theorem stream_id_not_listed :
    ((∀ id ∈ oneStreamStore.streamIDs,
        2 ≤ len (oneStreamStore.hostname (oneStreamStore.ip id)) ∧
        2 ≤ len (oneStreamStore.hostType (oneStreamStore.ip id))) ∧
      ∃ m, FetchAllCatchers oneStreamStore.conn RangeOrder.asStored = .ok m ∧
        ∀ kv ∈ m, "s1" ∉ kv.2) ∧
    ((∀ id ∈ sameLabelStore.streamIDs,
        2 ≤ len (sameLabelStore.hostname (sameLabelStore.ip id)) ∧
        2 ≤ len (sameLabelStore.hostType (sameLabelStore.ip id))) ∧
      ∃ m, FetchAllCatchers sameLabelStore.conn RangeOrder.asStored = .ok m ∧
        ∀ kv ∈ m, "s1" ∉ kv.2 ∧ sameLabelStore.entry "s1" ∉ kv.2) := by
  refine ⟨⟨by decide, [("hostA : ip1 : 720p", [":s1"])], by decide, by decide⟩,
    ⟨by decide, [("hh : x : y : tt", [":s2"])], by decide, by decide⟩⟩

/-- C2, amended: for every snapshot in which every stream's IP resolves to a hostname
and a host type of at least 2 bytes and no two distinct IPs compose the same label,
every enumerated stream ID is listed, as its entry `<active host>:<stream ID>`, under
the label `hostname : ip : hostType` of its IP; the labels of the result are distinct,
and its lists taken together hold exactly one entry per enumerated stream ID (their
concatenation is a rearrangement of the entries of the enumerated stream IDs). -/
theorem streams_listed_once (s : Snapshot) (ρ : RangeOrder)
    (hres : ∀ id ∈ s.streamIDs,
      2 ≤ len (s.hostname (s.ip id)) ∧ 2 ≤ len (s.hostType (s.ip id)))
    (hinj : ∀ a ∈ s.streamIDs, ∀ b ∈ s.streamIDs,
      s.hostname (s.ip a) ++ " : " ++ s.ip a ++ " : " ++ s.hostType (s.ip a)
        = s.hostname (s.ip b) ++ " : " ++ s.ip b ++ " : " ++ s.hostType (s.ip b) →
      s.ip a = s.ip b) :
    ∃ m, FetchAllCatchers s.conn ρ = .ok m ∧
      (∀ id ∈ s.streamIDs, ∃ es,
        GoMap.get? m (s.hostname (s.ip id) ++ " : " ++ s.ip id ++ " : " ++ s.hostType (s.ip id))
          = some es ∧
        s.activeHost id ++ ":" ++ id ∈ es) ∧
      (GoMap.keys m).Nodup ∧
      (m.flatMap Prod.snd).Perm (s.streamIDs.map (fun id => s.activeHost id ++ ":" ++ id)) := by
  have hinj' : ∀ a ∈ s.streamIDs, ∀ b ∈ s.streamIDs,
      s.label (s.ip a) = s.label (s.ip b) → s.ip a = s.ip b := by
    intro a ha b hb h
    rw [label_of_resolved s _ (hres a ha).1 (hres a ha).2,
      label_of_resolved s _ (hres b hb).1 (hres b hb).2] at h
    exact hinj a ha b hb h
  refine ⟨_, FetchAllCatchers_snapshot s ρ, ?_, dir_keys_nodup s ρ, dir_flatten s ρ hinj'⟩
  intro id hid
  refine ⟨(s.streamsOf (s.ip id)).map s.entry, ?_, ?_⟩
  · rw [← label_of_resolved s _ (hres id hid).1 (hres id hid).2]
    exact dir_complete s ρ hinj' id hid
  · refine List.mem_map.2 ⟨id, ?_, rfl⟩
    simp [Snapshot.streamsOf, hid]

/-- The amended C2 at a concrete store: three streams on two resolved IPs. -/
theorem streams_listed_once_witness :
    ∃ m, FetchAllCatchers resolvedStore.conn RangeOrder.reversed = .ok m ∧
      (∀ id ∈ resolvedStore.streamIDs, ∃ es,
        GoMap.get? m (resolvedStore.hostname (resolvedStore.ip id) ++ " : " ++
            resolvedStore.ip id ++ " : " ++ resolvedStore.hostType (resolvedStore.ip id))
          = some es ∧
        resolvedStore.activeHost id ++ ":" ++ id ∈ es) ∧
      (GoMap.keys m).Nodup ∧
      (m.flatMap Prod.snd).Perm
        (resolvedStore.streamIDs.map (fun id => resolvedStore.activeHost id ++ ":" ++ id)) :=
  streams_listed_once resolvedStore RangeOrder.reversed (by decide) (by decide)

/-! ## C3: the label of every IP -/

/-- C3, as stated, fails in its last part: in a store where the IP `"a : b"` of the
stream `s1` has no hostname lookup entry and another IP composes the same label
`"unknown : a : b : unknown"`, the range order that visits the keys as stored leaves the
entry of `s1` in no list of the result. -/
theorem unresolved_stream_dropped :
    "s1" ∈ unknownClashStore.streamIDs ∧
    unknownClashStore.hostname (unknownClashStore.ip "s1") = "" ∧
    ∃ m, FetchAllCatchers unknownClashStore.conn RangeOrder.asStored = .ok m ∧
      GoMap.keys m = ["unknown : a : b : unknown"] ∧
      ∀ kv ∈ m, unknownClashStore.entry "s1" ∉ kv.2 :=
  ⟨by decide, by decide, [("unknown : a : b : unknown", [":s2"])], by decide, by decide,
    by decide⟩

/-- C3, amended: for every snapshot and every IP that is the value of a stream record,
the result has the label `hostname : ip : hostType`, where the hostname is the value of
`hostlookup:<ip>` and the host type the value of `hosttype:<hostname>`, each replaced by
`"unknown"` exactly when it is shorter than 2 bytes (a missing entry is the empty
string); and the stream is listed under that label, as its entry, provided no other IP
composes the same label. -/
theorem label_of_every_ip (s : Snapshot) (ρ : RangeOrder) (id : String)
    (hid : id ∈ s.streamIDs) :
    ∃ m es, FetchAllCatchers s.conn ρ = .ok m ∧
      GoMap.get? m
          ((if len (s.hostname (s.ip id)) < 2 then "unknown" else s.hostname (s.ip id))
            ++ " : " ++ s.ip id ++ " : " ++
            (if len (s.hostType (s.ip id)) < 2 then "unknown" else s.hostType (s.ip id)))
        = some es ∧
      ((∀ b ∈ s.streamIDs, s.label (s.ip b) = s.label (s.ip id) → s.ip b = s.ip id) →
        s.activeHost id ++ ":" ++ id ∈ es) := by
  obtain ⟨id', hid', hl, hg⟩ := dir_present s ρ id hid
  refine ⟨_, (s.streamsOf (s.ip id')).map s.entry, FetchAllCatchers_snapshot s ρ, ?_, ?_⟩
  · rw [← orUnknown_eq, ← orUnknown_eq]
    exact hg
  · intro hinj
    rw [hinj id' hid' hl]
    refine List.mem_map.2 ⟨id, ?_, rfl⟩
    simp [Snapshot.streamsOf, hid]

/-- The amended C3 at the stream `s3` of the example store, whose IP `ip2` has no
hostname lookup entry: it is listed under `"unknown : ip2 : unknown"`. -/
theorem label_of_every_ip_witness :
    "s3" ∈ exampleStore.streamIDs ∧
    ∃ m es, FetchAllCatchers exampleStore.conn RangeOrder.asStored = .ok m ∧
      GoMap.get? m
          ((if len (exampleStore.hostname (exampleStore.ip "s3")) < 2 then "unknown"
              else exampleStore.hostname (exampleStore.ip "s3"))
            ++ " : " ++ exampleStore.ip "s3" ++ " : " ++
            (if len (exampleStore.hostType (exampleStore.ip "s3")) < 2 then "unknown"
              else exampleStore.hostType (exampleStore.ip "s3")))
        = some es ∧
      ((∀ b ∈ exampleStore.streamIDs,
          exampleStore.label (exampleStore.ip b) = exampleStore.label (exampleStore.ip "s3") →
            exampleStore.ip b = exampleStore.ip "s3") →
        exampleStore.activeHost "s3" ++ ":" ++ "s3" ∈ es) :=
  ⟨by decide, label_of_every_ip exampleStore RangeOrder.asStored "s3" (by decide)⟩

/-! ## C4: the order in which the store enumerates the keys -/

/-- C4, as stated, fails: with the same records, the enumeration `s1, s2` gives the list
`[":s1", ":s2"]` under the label of `ip1` and the enumeration `s2, s1` gives
`[":s2", ":s1"]`. -/
theorem enumeration_order_shows :
    ["s1", "s2"].Perm ["s2", "s1"] ∧
    FetchAllCatchers (Snapshot.ofRecords ["s1", "s2"] twoStreamRecords).conn RangeOrder.asStored
      = .ok [("hostA : ip1 : 720p", [":s1", ":s2"])] ∧
    FetchAllCatchers (Snapshot.ofRecords ["s2", "s1"] twoStreamRecords).conn RangeOrder.asStored
      = .ok [("hostA : ip1 : 720p", [":s2", ":s1"])] ∧
    [":s1", ":s2"] ≠ [":s2", ":s1"] :=
  ⟨List.Perm.swap _ _ _, by decide, by decide, by decide⟩

/-- C4, amended: for fixed records in which no two distinct IPs compose the same label,
any two enumeration orders of the stream keys and any two orders of the range loops
give the same labels, and under every label the same entries up to the order of the
list. -/
theorem directory_up_to_order (get : String → String) (ids₁ ids₂ : List String)
    (ρ₁ ρ₂ : RangeOrder) (hperm : ids₁.Perm ids₂)
    (hinj : ∀ a ∈ ids₁, ∀ b ∈ ids₁,
      (Snapshot.mk ids₁ get).label ((Snapshot.mk ids₁ get).ip a)
        = (Snapshot.mk ids₁ get).label ((Snapshot.mk ids₁ get).ip b) →
      (Snapshot.mk ids₁ get).ip a = (Snapshot.mk ids₁ get).ip b) :
    ∃ m₁ m₂, FetchAllCatchers (Snapshot.mk ids₁ get).conn ρ₁ = .ok m₁ ∧
      FetchAllCatchers (Snapshot.mk ids₂ get).conn ρ₂ = .ok m₂ ∧
      ∀ label, (GoMap.get? m₁ label = none ∧ GoMap.get? m₂ label = none) ∨
        ∃ es₁ es₂, GoMap.get? m₁ label = some es₁ ∧ GoMap.get? m₂ label = some es₂ ∧
          es₁.Perm es₂ := by
  refine ⟨_, _, FetchAllCatchers_snapshot _ ρ₁, FetchAllCatchers_snapshot _ ρ₂, ?_⟩
  have hinj₂ : ∀ a ∈ (Snapshot.mk ids₂ get).streamIDs, ∀ b ∈ (Snapshot.mk ids₂ get).streamIDs,
      (Snapshot.mk ids₂ get).label ((Snapshot.mk ids₂ get).ip a)
        = (Snapshot.mk ids₂ get).label ((Snapshot.mk ids₂ get).ip b) →
      (Snapshot.mk ids₂ get).ip a = (Snapshot.mk ids₂ get).ip b :=
    fun a ha b hb h => hinj a (hperm.mem_iff.2 ha) b (hperm.mem_iff.2 hb) h
  have hstreams : ∀ ip, ((Snapshot.mk ids₁ get).streamsOf ip).Perm
      ((Snapshot.mk ids₂ get).streamsOf ip) := fun ip => hperm.filter _
  intro label
  cases h₁ : GoMap.get? ((Snapshot.mk ids₁ get).directory ρ₁) label with
  | some es₁ =>
    obtain ⟨id, hid, hl, hes⟩ := dir_sound _ ρ₁ label es₁ h₁
    refine Or.inr ⟨es₁, ((Snapshot.mk ids₂ get).streamsOf ((Snapshot.mk ids₂ get).ip id)).map
        (Snapshot.mk ids₂ get).entry, rfl, ?_, ?_⟩
    · rw [hl]
      exact dir_complete (Snapshot.mk ids₂ get) ρ₂ hinj₂ id (hperm.mem_iff.1 hid)
    · rw [hes]
      exact (hstreams _).map _
  | none =>
    refine Or.inl ⟨rfl, ?_⟩
    cases h₂ : GoMap.get? ((Snapshot.mk ids₂ get).directory ρ₂) label with
    | none => rfl
    | some es₂ =>
      exfalso
      obtain ⟨id, hid, hl, _⟩ := dir_sound _ ρ₂ label es₂ h₂
      have := dir_complete (Snapshot.mk ids₁ get) ρ₁ hinj id (hperm.mem_iff.2 hid)
      rw [hl] at h₁
      exact Option.noConfusion (h₁.symm.trans this)

/-- The amended C4 at the records of the example store, enumerated as `s1, s2, s3` and
as `s3, s1, s2`, with two different range orders. -/
theorem directory_up_to_order_witness :
    ["s1", "s2", "s3"].Perm ["s3", "s1", "s2"] ∧
    ∃ m₁ m₂,
      FetchAllCatchers (Snapshot.mk ["s1", "s2", "s3"] exampleStore.get).conn RangeOrder.asStored
        = .ok m₁ ∧
      FetchAllCatchers (Snapshot.mk ["s3", "s1", "s2"] exampleStore.get).conn RangeOrder.reversed
        = .ok m₂ ∧
      ∀ label, (GoMap.get? m₁ label = none ∧ GoMap.get? m₂ label = none) ∨
        ∃ es₁ es₂, GoMap.get? m₁ label = some es₁ ∧ GoMap.get? m₂ label = some es₂ ∧
          es₁.Perm es₂ :=
  ⟨(@List.perm_append_comm String ["s1", "s2"] ["s3"]),
    directory_up_to_order exampleStore.get ["s1", "s2", "s3"] ["s3", "s1", "s2"]
      RangeOrder.asStored RangeOrder.reversed
      (@List.perm_append_comm String ["s1", "s2"] ["s3"]) (by decide)⟩

/-! ## C5: a failure of the store -/

/-- C5 fails on the code: when the stage-2 `EXEC` fails and the connection stays usable,
`FetchAllCatchers` returns an empty directory with a nil error, for every order of its
range loops. The `return nil, err` of line 116 stands inside the loop over the replies,
which are empty after the failure. -/
theorem stage2_failure_gives_empty_directory (ρ : RangeOrder) :
    FetchAllCatchers stage2FailureConn ρ = .ok [] :=
  stage2_failure_swallowed stage2FailureConn ρ _ ["nameservice:stream:s1"] rfl rfl (by decide)
    rfl rfl rfl

/-! ## C6: FetchIngesterHosts -/

/-- C6: given that `FetchAllCatchers` returned the directory `cMap`, `FetchIngesterHosts`
returns an error exactly when some label of `cMap` does not hold exactly two `':'`;
otherwise it returns one host per label, in the order its range loop visits the labels,
whose `Name`, `IP` and `Type` are the three parts of the label, split at `':'`, with
the surrounding white space trimmed. -/
theorem ingester_hosts_error_iff (c : Conn) (ρ : RangeOrder) (cMap : GoMap (List String))
    (h : FetchAllCatchers c ρ = .ok cMap) :
    ((∃ e, FetchIngesterHosts c ρ = .fail e)
        ↔ ∃ label ∈ GoMap.keys cMap, label.data.count ':' ≠ 2) ∧
    ((∀ label ∈ GoMap.keys cMap, label.data.count ':' = 2) →
      ∃ hosts, FetchIngesterHosts c ρ = .ok hosts ∧
        List.Forall₂ HostOfLabel (ρ.order (GoMap.keys cMap)) hosts) := by
  have hmem : ∀ label, label ∈ GoMap.keys cMap
      ↔ ∃ kv ∈ GoMap.range ρ cMap, kv.1 = label := by
    intro label
    rw [← (ρ.perm _).mem_iff, ← GoMap.range_map_fst, List.mem_map]
  have hok : (∀ label ∈ GoMap.keys cMap, label.data.count ':' = 2) →
      ∃ hosts, FetchIngesterHosts c ρ = .ok hosts ∧
        List.Forall₂ HostOfLabel (ρ.order (GoMap.keys cMap)) hosts := by
    intro hall
    obtain ⟨hosts, hh, hf⟩ := hostsOfMap_ok (GoMap.range ρ cMap) []
      (fun kv hkv => hall kv.1 ((hmem kv.1).2 ⟨kv, hkv, rfl⟩))
    rw [GoMap.range_map_fst] at hf
    exact ⟨hosts, by simp only [FetchIngesterHosts, h, hh, List.nil_append], hf⟩
  refine ⟨⟨?_, ?_⟩, hok⟩
  · rintro ⟨e, he⟩
    by_contra hno
    have hall : ∀ label ∈ GoMap.keys cMap, label.data.count ':' = 2 := by
      intro label hl
      by_contra hne
      exact hno ⟨label, hl, hne⟩
    obtain ⟨hosts, hh, _⟩ := hok hall
    rw [hh] at he
    cases he
  · rintro ⟨label, hl, hne⟩
    obtain ⟨kv, hkv, rfl⟩ := (hmem label).1 hl
    obtain ⟨e, he⟩ := hostsOfMap_fail (GoMap.range ρ cMap) [] ⟨kv, hkv, hne⟩
    exact ⟨e, by simp only [FetchIngesterHosts, h, he]⟩

/-- C6 at the directory of the example store. -/
theorem ingester_hosts_error_iff_witness :
    FetchAllCatchers exampleStore.conn RangeOrder.asStored
      = .ok [("hostA : ip1 : 720p", [":s1", ":s2"]), ("unknown : ip2 : unknown", [":s3"])] ∧
    ((∃ e, FetchIngesterHosts exampleStore.conn RangeOrder.asStored = .fail e)
        ↔ ∃ label ∈ GoMap.keys
            [("hostA : ip1 : 720p", [":s1", ":s2"]), ("unknown : ip2 : unknown", [":s3"])],
          label.data.count ':' ≠ 2) ∧
    ((∀ label ∈ GoMap.keys
          [("hostA : ip1 : 720p", [":s1", ":s2"]), ("unknown : ip2 : unknown", [":s3"])],
        label.data.count ':' = 2) →
      ∃ hosts, FetchIngesterHosts exampleStore.conn RangeOrder.asStored = .ok hosts ∧
        List.Forall₂ HostOfLabel
          (RangeOrder.asStored.order (GoMap.keys
            [("hostA : ip1 : 720p", [":s1", ":s2"]), ("unknown : ip2 : unknown", [":s3"])]))
          hosts) :=
  ⟨by decide, ingester_hosts_error_iff exampleStore.conn RangeOrder.asStored _ (by decide)⟩

/-! ## C7: the labels of a directory split into three parts -/

/-- C7, as stated, fails: for a stream on the IPv6 address `fe80::1` the label is
`"hostA : fe80::1 : 720p"`, which holds four `':'`, and `FetchIngesterHosts` returns its
structural error on the directory `FetchAllCatchers` produced. -/
theorem ipv6_label_has_four_colons :
    FetchAllCatchers ipv6Store.conn RangeOrder.asStored
      = .ok [("hostA : fe80::1 : 720p", [":s1"])] ∧
    ("hostA : fe80::1 : 720p" : String).data.count ':' = 4 ∧
    (Split "hostA : fe80::1 : 720p" ':').length = 5 ∧
    FetchIngesterHosts ipv6Store.conn RangeOrder.asStored
      = .fail "The key hostA : fe80::1 : 720p should have had one colon!" :=
  ⟨by decide, by decide, by decide, by decide⟩

/-- C7, amended: for every snapshot in which no IP of a stream, no hostname and no host
type of such an IP holds a `':'`, every label of the result holds exactly two `':'` (it
splits into exactly three parts) and `FetchIngesterHosts` returns its hosts without
an error. -/
theorem labels_have_two_colons (s : Snapshot) (ρ : RangeOrder)
    (hno : ∀ id ∈ s.streamIDs, ':' ∉ (s.ip id).data ∧ ':' ∉ (s.hostname (s.ip id)).data ∧
      ':' ∉ (s.hostType (s.ip id)).data) :
    ∃ m, FetchAllCatchers s.conn ρ = .ok m ∧
      (∀ label ∈ GoMap.keys m, label.data.count ':' = 2 ∧ (Split label ':').length = 3) ∧
      ∃ hosts, FetchIngesterHosts s.conn ρ = .ok hosts := by
  have hcount : ∀ label ∈ GoMap.keys (s.directory ρ), label.data.count ':' = 2 := by
    intro label hl
    obtain ⟨es, hes⟩ := (GoMap.mem_keys_iff _ _).1 hl
    obtain ⟨id, hid, rfl, _⟩ := dir_sound s ρ label es hes
    exact count_colon_label s _ (hno id hid).1 (hno id hid).2.1 (hno id hid).2.2
  refine ⟨_, FetchAllCatchers_snapshot s ρ, ?_, ?_⟩
  · intro label hl
    exact ⟨hcount label hl, by rw [Split_length, hcount label hl]⟩
  · have hmem : ∀ kv ∈ GoMap.range ρ (s.directory ρ), kv.1.data.count ':' = 2 := by
      intro kv hkv
      apply hcount
      rw [← (ρ.perm _).mem_iff, ← GoMap.range_map_fst]
      exact List.mem_map.2 ⟨kv, hkv, rfl⟩
    obtain ⟨hosts, hh, _⟩ := hostsOfMap_ok (GoMap.range ρ (s.directory ρ)) [] hmem
    exact ⟨hosts, by simp only [FetchIngesterHosts, FetchAllCatchers_snapshot, hh,
      List.nil_append]⟩

/-- The amended C7 at the example store. -/
theorem labels_have_two_colons_witness :
    ∃ m, FetchAllCatchers exampleStore.conn RangeOrder.asStored = .ok m ∧
      (∀ label ∈ GoMap.keys m, label.data.count ':' = 2 ∧ (Split label ':').length = 3) ∧
      ∃ hosts, FetchIngesterHosts exampleStore.conn RangeOrder.asStored = .ok hosts :=
  labels_have_two_colons exampleStore RangeOrder.asStored (by decide)

/-! ## C8: what stands in front of a stream ID -/

/-- C8, as stated, fails: on a store where the hostname of `ip1` is `hostA` and the
active host of `s1` is `kxyz.syncbak.corp`, the entry of `s1` is
`"kxyz.syncbak.corp:s1"`, not `"hostA:s1"`. -/
theorem entry_not_hostname_prefixed :
    activeHostStore.hostname (activeHostStore.ip "s1") = "hostA" ∧
    FetchAllCatchers activeHostStore.conn RangeOrder.asStored
      = .ok [("hostA : ip1 : 720p", ["kxyz.syncbak.corp:s1"])] ∧
    "hostA" ++ ":" ++ "s1" ∉ ["kxyz.syncbak.corp:s1"] :=
  ⟨by decide, by decide, by decide⟩

/-- C8, amended: for every snapshot, every list of the result is, for one IP that
composes its label, the list of the stream IDs of that IP in enumeration order, each
prefixed with the value of `nameservice:activehost:<stream ID>` and a colon. -/
theorem entries_active_host_prefixed (s : Snapshot) (ρ : RangeOrder) :
    ∃ m, FetchAllCatchers s.conn ρ = .ok m ∧
      ∀ label es, GoMap.get? m label = some es →
        ∃ id ∈ s.streamIDs, label = s.label (s.ip id) ∧
          es = (s.streamIDs.filter (fun x => s.ip x = s.ip id)).map
            (fun x => s.get ("nameservice:activehost:" ++ x) ++ ":" ++ x) :=
  ⟨_, FetchAllCatchers_snapshot s ρ, fun label es h => dir_sound s ρ label es h⟩

/-! ## C9: the active-host records -/

/-- C10: for every string `s`, `parseStation(s)` returns, without failing, the station
whose `CallSign` is the part of `s` before its first `':'` (all of `s` when it has none)
and whose `RawStreamID` is the part between the first and the second `':'` (up to the
end when there is one `':'` only, and empty when there is none). -/
theorem parseStation_parts (s : String) :
    parseStation s = .ok
        { CallSign := ⟨s.data.takeWhile (fun c => c ≠ ':')⟩,
          RawStreamID :=
            ⟨((s.data.dropWhile (fun c => c ≠ ':')).drop 1).takeWhile (fun c => c ≠ ':')⟩ } ∧
      (':' ∉ s.data → parseStation s = .ok { CallSign := s, RawStreamID := "" }) := by
  have hmain : parseStation s = .ok
      { CallSign := ⟨s.data.takeWhile (fun c => c ≠ ':')⟩,
        RawStreamID :=
          ⟨((s.data.dropWhile (fun c => c ≠ ':')).drop 1).takeWhile (fun c => c ≠ ':')⟩ } := by
    unfold parseStation Split
    rw [splitChars_eq]
    cases hd : s.data.dropWhile (fun c => c ≠ ':') with
    | nil => simp
    | cons c rest =>
      simp only [List.drop_succ_cons, List.drop_zero]
      rw [splitChars_eq]
      simp
  refine ⟨hmain, fun hno => ?_⟩
  rw [hmain]
  have h1 : s.data.takeWhile (fun c => c ≠ ':') = s.data := by
    rw [List.takeWhile_eq_self_iff]
    intro c hc
    have hne : c ≠ ':' := fun e => hno (e ▸ hc)
    simpa using hne
  have h2 : s.data.dropWhile (fun c => c ≠ ':') = [] := by
    rw [List.dropWhile_eq_nil_iff]
    intro c hc
    have hne : c ≠ ':' := fun e => hno (e ▸ hc)
    simpa using hne
  rw [h1, h2]
  rfl

/-- C10 at a string without a `':'`. -/
theorem parseStation_parts_witness :
    parseStation "kxyz" = .ok { CallSign := "kxyz", RawStreamID := "" } :=
  (parseStation_parts "kxyz").2 (by decide)

end controldb

namespace dashboard

open controldb

/-! ## Facts about the loops of the dashboard -/

theorem firstSeen_get? (l : List Entry) (em : GoMap Entry) (k : String) :
    GoMap.get? (firstSeen l em) k =
      match GoMap.get? em k with
      | some e => some e
      | none => l.find? (fun b => b.SourceStreamID = k) := by
  induction l generalizing em with
  | nil => cases h : GoMap.get? em k <;> simp [firstSeen, h]
  | cons b rest ih =>
    rw [firstSeen]
    cases hb : GoMap.get? em b.SourceStreamID with
    | some e0 =>
      simp only [ih]
      cases hk : GoMap.get? em k with
      | some e => rfl
      | none =>
        have hne : b.SourceStreamID ≠ k := by
          rintro rfl
          rw [hb] at hk
          cases hk
        simp [List.find?_cons, hne]
    | none =>
      simp only [ih, GoMap.get?_set]
      by_cases hkb : k = b.SourceStreamID
      · subst hkb
        simp [hb, List.find?_cons]
      · have hne : b.SourceStreamID ≠ k := fun e => hkb e.symm
        simp only [if_neg hkb]
        cases hk : GoMap.get? em k <;> simp [List.find?_cons, hne]

theorem firstSeen_nodup (l : List Entry) (em : GoMap Entry) (h : (GoMap.keys em).Nodup) :
    (GoMap.keys (firstSeen l em)).Nodup := by
  induction l generalizing em with
  | nil => exact h
  | cons b rest ih =>
    rw [firstSeen]
    cases GoMap.get? em b.SourceStreamID with
    | some e0 => exact ih em h
    | none => exact ih _ (GoMap.nodup_keys_set _ _ _ h)

theorem assignLoop_eq_groupIDs (f : String → String) (l : List (String × Entry))
    (hosts : GoMap (List String)) (hf : ∀ kv ∈ l, f kv.1 = kv.2.IP) :
    assignLoop l hosts = groupIDs f (l.map Prod.fst) hosts := by
  induction l generalizing hosts with
  | nil => rfl
  | cons kv rest ih =>
    obtain ⟨ssid, entry⟩ := kv
    have he : f ssid = entry.IP := hf (ssid, entry) (by simp)
    have ih' := fun hosts => ih hosts (fun kv hkv => hf kv (by simp [hkv]))
    simp only [assignLoop, List.map_cons, groupIDs, he]
    cases GoMap.get? hosts entry.IP <;> simp only [ih']

theorem pairwise_find? {α : Type} (R : α → α → Prop) (p : α → Bool) (l : List α)
    (hl : l.Pairwise R) (e e' : α) (hfind : l.find? p = some e) (he' : e' ∈ l)
    (hp : p e' = true) : e' = e ∨ R e e' := by
  induction l with
  | nil => cases he'
  | cons a rest ih =>
    rw [List.pairwise_cons] at hl
    by_cases ha : p a = true
    · simp only [List.find?_cons, ha, Option.some.injEq] at hfind
      subst hfind
      rcases List.mem_cons.1 he' with h | h
      · exact Or.inl h
      · exact Or.inr (hl.1 e' h)
    · have ha' : p a = false := by simpa using ha
      simp only [List.find?_cons, ha'] at hfind
      rcases List.mem_cons.1 he' with h | h
      · rw [h] at hp
        exact absurd hp ha
      · exact ih hl.2 hfind h

/-- The IP under which `adapterAssignments` files a source stream ID: that of its entry
in `em`. -/
theorem adapterAssignments_eq (x : Elastic) (σ : SliceSort) (ρ : RangeOrder)
    (entries : List Entry) (hf : x.newFinder = .ok ()) (hfind : x.find = .ok entries) :
    adapterAssignments x σ ρ = .ok
      (groupIDs
        (fun k => (((σ.sort entries).find? (fun b => b.SourceStreamID = k)).map
          (fun e => e.IP)).getD "")
        (ρ.order (GoMap.keys (firstSeen (σ.sort entries) []))) []) := by
  simp only [adapterAssignments, adapterAssignmentsWith, hf, hfind]
  rw [assignLoop_eq_groupIDs
    (fun k => (((σ.sort entries).find? (fun b => b.SourceStreamID = k)).map
      (fun e => e.IP)).getD ""), GoMap.range_map_fst]
  intro kv hkv
  obtain ⟨k, e⟩ := kv
  have h := (GoMap.mem_range ρ _ k e).1 hkv
  rw [firstSeen_get?] at h
  simp only [GoMap.get?] at h
  simp [h]

theorem mem_keys_firstSeen (l : List Entry) (k : String) :
    k ∈ GoMap.keys (firstSeen l []) ↔ k ∈ l.map (fun e => e.SourceStreamID) := by
  rw [GoMap.mem_keys_iff]
  simp only [firstSeen_get?, GoMap.get?]
  constructor
  · rintro ⟨v, hv⟩
    have h1 := List.mem_of_find?_eq_some hv
    have h2 := List.find?_some hv
    exact List.mem_map.2 ⟨v, h1, by simpa using h2⟩
  · intro h
    obtain ⟨e, he, rfl⟩ := List.mem_map.1 h
    cases hfind : l.find? (fun b => b.SourceStreamID = e.SourceStreamID) with
    | some v => exact ⟨v, rfl⟩
    | none =>
      have := List.find?_eq_none.1 hfind e he
      simp at this

/-! ## The first entry of the stable sort that meets a test -/

theorem find?_orderedInsert (p : Entry → Bool) (a : Entry) (S : List Entry)
    (hS : S.Pairwise (fun a b => b.Timestamp ≤ a.Timestamp)) :
    (List.orderedInsert (fun a b => b.Timestamp ≤ a.Timestamp) a S).find? p =
      if p a = true then
        (match S.find? p with
        | some h => if h.Timestamp ≤ a.Timestamp then some a else some h
        | none => some a)
      else S.find? p := by
  induction S with
  | nil =>
    by_cases ha : p a = true
    · simp [List.orderedInsert, List.find?_cons, ha]
    · have ha' : p a = false := by simpa using ha
      simp [List.orderedInsert, List.find?_cons, ha']
  | cons b S' ih =>
    rw [List.pairwise_cons] at hS
    by_cases hab : b.Timestamp ≤ a.Timestamp
    · rw [List.orderedInsert, if_pos hab]
      by_cases ha : p a = true
      · rw [if_pos ha, List.find?_cons, ha]
        cases hf : (b :: S').find? p with
        | none => rfl
        | some h =>
          have hmem := List.mem_of_find?_eq_some hf
          have hh : h.Timestamp ≤ a.Timestamp := by
            rcases List.mem_cons.1 hmem with e | e
            · rw [e]; exact hab
            · exact le_trans (hS.1 h e) hab
          simp [hh]
      · have ha' : p a = false := by simpa using ha
        rw [if_neg ha, List.find?_cons, ha']
    · rw [List.orderedInsert, if_neg hab, List.find?_cons, ih hS.2]
      by_cases hb : p b = true
      · simp only [hb, List.find?_cons]
        by_cases ha : p a = true
        · simp [ha, hab]
        · simp [ha]
      · have hb' : p b = false := by simpa using hb
        simp only [hb', List.find?_cons]

theorem find?_congr_mem {α : Type} (p q : α → Bool) (l : List α)
    (h : ∀ a ∈ l, p a = q a) : l.find? p = l.find? q := by
  induction l with
  | nil => rfl
  | cons a rest ih =>
    rw [List.find?_cons, List.find?_cons, h a (by simp),
      ih (fun b hb => h b (by simp [hb]))]

theorem find?_stableSort (p : Entry → Bool) (l : List Entry) :
    (stableSort l).find? p =
      l.find? (fun e => p e && decide (∀ e' ∈ l, p e' = true → e'.Timestamp ≤ e.Timestamp)) := by
  induction l with
  | nil => rfl
  | cons a l ih =>
    have hS := SliceSort.stable.sorted l
    have hperm : (stableSort l).Perm l := SliceSort.stable.perm l
    show (List.orderedInsert _ a (stableSort l)).find? p = _
    rw [find?_orderedInsert p a (stableSort l) hS, ih]
    by_cases ha : p a = true
    · rw [if_pos ha]
      cases hf : l.find?
          (fun e => p e && decide (∀ e' ∈ l, p e' = true → e'.Timestamp ≤ e.Timestamp)) with
      | none =>
        have hnone : ∀ e ∈ l, p e = false := by
          intro e he
          by_contra hpe
          have hpe' : p e = true := by simpa using hpe
          have hstable : (stableSort l).find? p = none := by rw [ih, hf]
          have := List.find?_eq_none.1 hstable e (hperm.mem_iff.2 he)
          exact this hpe'
        have hq : (∀ e' ∈ a :: l, p e' = true → e'.Timestamp ≤ a.Timestamp) := by
          intro e' he' hpe'
          rcases List.mem_cons.1 he' with e | e
          · rw [e]
          · rw [hnone e' e] at hpe'
            cases hpe'
        rw [List.find?_cons]
        simp only [ha, Bool.true_and]
        rw [show decide (∀ e' ∈ a :: l, p e' = true → e'.Timestamp ≤ a.Timestamp) = true
          from decide_eq_true hq]
      | some h =>
        have hh := List.find?_some hf
        have hmem := List.mem_of_find?_eq_some hf
        simp only [Bool.and_eq_true, decide_eq_true_eq] at hh
        by_cases hha : h.Timestamp ≤ a.Timestamp
        · have hq : (∀ e' ∈ a :: l, p e' = true → e'.Timestamp ≤ a.Timestamp) := by
            intro e' he' hpe'
            rcases List.mem_cons.1 he' with e | e
            · rw [e]
            · exact le_trans (hh.2 e' e hpe') hha
          rw [List.find?_cons]
          simp only [ha, Bool.true_and, hha, if_true]
          rw [show decide (∀ e' ∈ a :: l, p e' = true → e'.Timestamp ≤ a.Timestamp) = true
            from decide_eq_true hq]
        · have hq : ¬ (∀ e' ∈ a :: l, p e' = true → e'.Timestamp ≤ a.Timestamp) :=
            fun hall => hha (hall h (by simp [hmem]) hh.1)
          simp only [hha, if_false, List.find?_cons, ha, Bool.true_and, decide_eq_true_eq]
          rw [show decide (∀ e' ∈ a :: l, p e' = true → e'.Timestamp ≤ a.Timestamp) = false
            from decide_eq_false hq]
          simp only
          rw [← hf]
          apply find?_congr_mem
          intro e he
          by_cases hpe : p e = true
          · simp only [hpe, Bool.true_and, List.mem_cons, forall_eq_or_imp, ha, true_implies]
            by_cases hall : ∀ e' ∈ l, p e' = true → e'.Timestamp ≤ e.Timestamp
            · have hae : a.Timestamp ≤ e.Timestamp :=
                le_trans (le_of_lt (lt_of_not_le hha)) (hall h hmem hh.1)
              simp [hall, hae]
            · simp [hall]
          · have hpe' : p e = false := by simpa using hpe
            simp [hpe']
    · have ha' : p a = false := by simpa using ha
      rw [if_neg ha, List.find?_cons]
      simp only [ha', Bool.false_and]
      apply find?_congr_mem
      intro e he
      simp [ha']

theorem sort_eq_of_nodup_timestamps (l₁ l₂ : List Entry) (hperm : l₁.Perm l₂)
    (h₁ : l₁.Pairwise (fun a b => b.Timestamp ≤ a.Timestamp))
    (h₂ : l₂.Pairwise (fun a b => b.Timestamp ≤ a.Timestamp))
    (hnd : (l₁.map (fun e => e.Timestamp)).Nodup) : l₁ = l₂ := by
  have hnd₂ : (l₂.map (fun e => e.Timestamp)).Nodup := (hperm.map _).nodup_iff.1 hnd
  have strict : ∀ l : List Entry, l.Pairwise (fun a b => b.Timestamp ≤ a.Timestamp) →
      (l.map (fun e => e.Timestamp)).Nodup →
      l.Pairwise (fun a b => b.Timestamp < a.Timestamp) := by
    intro l hl hn
    have hne : l.Pairwise (fun a b => a.Timestamp ≠ b.Timestamp) := by
      simpa [List.Nodup, List.pairwise_map] using hn
    exact (hl.and hne).imp (fun h => lt_of_le_of_ne h.1 (Ne.symm h.2))
  haveI : IsAntisymm Entry (fun a b => b.Timestamp < a.Timestamp) :=
    ⟨fun a b hab hba => absurd hab (not_lt_of_gt hba)⟩
  exact List.eq_of_perm_of_sorted hperm (strict l₁ h₁ hnd) (strict l₂ h₂ hnd₂)

theorem perm_eq_of_length_le_one {α : Type} (l₁ l₂ : List α) (h : l₁.Perm l₂)
    (hlen : l₂.length ≤ 1) : l₁ = l₂ := by
  match l₂, hlen with
  | [], _ => exact h.eq_nil
  | [a], _ => exact List.perm_singleton.1 h
  | _ :: _ :: _, hl => simp at hl

theorem find?_isSome_of_mem (entries : List Entry) (id : String)
    (h : id ∈ entries.map (fun e => e.SourceStreamID)) :
    ∃ e, entries.find? (fun b => b.SourceStreamID = id) = some e := by
  obtain ⟨e, he, rfl⟩ := List.mem_map.1 h
  cases hfind : entries.find? (fun b => b.SourceStreamID = e.SourceStreamID) with
  | some v => exact ⟨v, rfl⟩
  | none =>
    have := List.find?_eq_none.1 hfind e he
    simp at this

/-- What `adapterAssignments` does with a source stream ID whose first entry in the
sorted list is `e`: it lists the ID under the IP of `e`. -/
theorem listed_under_first (x : Elastic) (σ : SliceSort) (ρ : RangeOrder)
    (entries : List Entry) (hf : x.newFinder = .ok ()) (hfind : x.find = .ok entries)
    (id : String) (e : Entry)
    (he : (σ.sort entries).find? (fun b => b.SourceStreamID = id) = some e) :
    ∃ m ids, adapterAssignments x σ ρ = .ok m ∧ GoMap.get? m e.IP = some ids ∧ id ∈ ids := by
  refine ⟨_, (ρ.order (GoMap.keys (firstSeen (σ.sort entries) []))).filter
      (fun k => (((σ.sort entries).find? (fun b => b.SourceStreamID = k)).map
        (fun e => e.IP)).getD "" = e.IP), adapterAssignments_eq x σ ρ entries hf hfind, ?_, ?_⟩
  · have hid : id ∈ ρ.order (GoMap.keys (firstSeen (σ.sort entries) [])) := by
      rw [(ρ.perm _).mem_iff, mem_keys_firstSeen]
      have h1 := List.mem_of_find?_eq_some he
      have h2 := List.find?_some he
      exact List.mem_map.2 ⟨e, h1, by simpa using h2⟩
    rw [groupIDs_nil_get?]
    refine ⟨rfl, ?_⟩
    intro hnil
    have : id ∈ (ρ.order (GoMap.keys (firstSeen (σ.sort entries) []))).filter
        (fun k => (((σ.sort entries).find? (fun b => b.SourceStreamID = k)).map
          (fun e => e.IP)).getD "" = e.IP) := by
      simp [List.mem_filter, hid, he]
    rw [hnil] at this
    cases this
  · have hid : id ∈ ρ.order (GoMap.keys (firstSeen (σ.sort entries) [])) := by
      rw [(ρ.perm _).mem_iff, mem_keys_firstSeen]
      have h1 := List.mem_of_find?_eq_some he
      have h2 := List.find?_some he
      exact List.mem_map.2 ⟨e, h1, by simpa using h2⟩
    simp [List.mem_filter, hid, he]

/-! ## The library sort on the thirteen tied heartbeats -/

/-- A range of at most twelve elements is sorted by insertion. -/
theorem pdqsort_func_short (next : Nat → Nat) (n : Nat) (data : List Entry) (a b limit : Nat)
    (wasBalanced wasPartitioned : Bool) (h : b - a ≤ 12) :
    pdqsort_func next (n + 1) data a b limit wasBalanced wasPartitioned
      = insertionSort_func data a b := by
  rw [pdqsort_func, if_pos h]

/-- One round of `pdqsort_func` on a longer range, entered with `wasBalanced` and
`wasPartitioned` set, when the pivot comes with the hint `increasingHint`, the range is
not sorted yet, `partition_func` is the partition to use and its left part is the
shorter one. -/
theorem pdqsort_func_round (next : Nat → Nat) (n : Nat) (data data' : List Entry)
    (a b limit pivot mid : Nat) (alreadyPartitioned : Bool)
    (hlen : ¬ b - a ≤ 12) (hlimit : ¬ limit = 0)
    (hpivot : choosePivot_func data a b = (pivot, .increasingHint))
    (hsorted : partialInsertionSort_func data a b = (data, false))
    (hequal : (decide (a > 0) && !Less data (a - 1) pivot) = false)
    (hpart : partition_func data a b pivot = (data', mid, alreadyPartitioned))
    (hleft : mid - a < b - mid) :
    pdqsort_func next (n + 1) data a b limit true true
      = pdqsort_func next n (pdqsort_func next n data' a mid limit true true) (mid + 1) b limit
          (decide (mid - a ≥ (b - a) / 8)) alreadyPartitioned := by
  rw [pdqsort_func, if_neg hlen, if_neg hlimit]
  simp only [Bool.not_true, Bool.false_eq_true, if_false, hpivot, reduceCtorEq, Bool.and_self,
    decide_True, if_true, hsorted, hequal, hpart]
  rw [if_pos hleft]

/-- What `sort.Slice` makes of the thirteen tied heartbeats, whatever the generator of
`breakPatterns_func` is: the partition around the pivot `data[6]` exchanges `data[0]`
and `data[6]`, and the record of `H1` ends behind five of the records of `H2`. -/
theorem Slice_tiedHeartbeats (next : Nat → Nat) :
    Slice next tiedHeartbeats
      = { Timestamp := 30, SourceStreamID := "B", IP := "H3", Host := "H3" } ::
        (List.replicate 5 { Timestamp := 20, SourceStreamID := "A", IP := "H2", Host := "H2" } ++
        { Timestamp := 20, SourceStreamID := "A", IP := "H1", Host := "H1" } ::
        List.replicate 6 { Timestamp := 20, SourceStreamID := "A", IP := "H2", Host := "H2" }) := by
  have hpivot : choosePivot_func tiedHeartbeats 0 13 = (6, .increasingHint) := by decide!
  have hsorted : partialInsertionSort_func tiedHeartbeats 0 13 = (tiedHeartbeats, false) := by
    decide!
  have hpart : partition_func tiedHeartbeats 0 13 6
      = ({ Timestamp := 30, SourceStreamID := "B", IP := "H3", Host := "H3" } ::
        (List.replicate 5 { Timestamp := 20, SourceStreamID := "A", IP := "H2", Host := "H2" } ++
        { Timestamp := 20, SourceStreamID := "A", IP := "H1", Host := "H1" } ::
        List.replicate 6 { Timestamp := 20, SourceStreamID := "A", IP := "H2", Host := "H2" }),
        1, false) := by decide!
  show pdqsort_func next (13 + 1) tiedHeartbeats 0 13 4 true true = _
  rw [pdqsort_func_round next 13 tiedHeartbeats _ 0 13 4 6 1 false (by decide) (by decide)
    hpivot hsorted (by decide) hpart (by decide)]
  rw [pdqsort_func_short next 12 _ 0 1 4 true true (by decide)]
  rw [pdqsort_func_short next 12 _ 2 13 4 _ false (by decide)]
  decide!

/-! ## C11: the latest record of every source stream -/

/-- C11, as stated, fails in its tie rule: of the twelve records of the stream `A`, all
with its latest timestamp, the first of the input is the one from `H1`; `sort.Slice`,
whatever its generator, rearranges the thirteen records into a sorted list in which a
record from `H2` stands in front of it, and `adapterAssignments` lists `A` under `H2`. -/
theorem tie_not_broken_by_input_order :
    tiedHeartbeats.find? (fun e => decide (e.SourceStreamID = "A") &&
        decide (∀ e' ∈ tiedHeartbeats, e'.SourceStreamID = "A" → e'.Timestamp ≤ e.Timestamp))
      = some { Timestamp := 20, SourceStreamID := "A", IP := "H1", Host := "H1" } ∧
    ∀ next : Nat → Nat,
      (Slice next tiedHeartbeats).map (fun e => (e.SourceStreamID, e.IP))
        = [("B", "H3"), ("A", "H2"), ("A", "H2"), ("A", "H2"), ("A", "H2"), ("A", "H2"),
           ("A", "H1"), ("A", "H2"), ("A", "H2"), ("A", "H2"), ("A", "H2"), ("A", "H2"),
           ("A", "H2")] ∧
      (Slice next tiedHeartbeats).Perm tiedHeartbeats ∧
      (Slice next tiedHeartbeats).Pairwise (fun a b => b.Timestamp ≤ a.Timestamp) ∧
      adapterAssignmentsWith (elasticOf tiedHeartbeats) (Slice next) RangeOrder.asStored
        = .ok [("H3", ["B"]), ("H2", ["A"])] := by
  refine ⟨by decide!, fun next => ⟨?_, ?_, ?_, ?_⟩⟩
  · rw [Slice_tiedHeartbeats]
    decide!
  · rw [Slice_tiedHeartbeats]
    decide!
  · rw [Slice_tiedHeartbeats]
    decide!
  · show Outcome.ok (assignLoop (GoMap.range RangeOrder.asStored
      (firstSeen (Slice next tiedHeartbeats) [])) []) = _
    rw [Slice_tiedHeartbeats]
    decide!

/-- C11, amended: for every input list of heartbeat records, every sort that meets the
contract of `sort.Slice` and every order of the range loop, `adapterAssignments` lists
each source stream ID of the input under the reporting host (IP) of a record that has
the latest timestamp among the records with that ID; that record is the earliest such
record of the input when the sort keeps equal timestamps in input order, which
`sort.Slice` does not promise. On the input
`[(src=A,host=H1,t=10),(src=A,host=H1,t=20),(src=B,host=H2,t=15)]` the result is
`{"H1":["A"], "H2":["B"]}`. -/
theorem latest_record_decides :
    (∀ (x : Elastic) (σ : SliceSort) (ρ : RangeOrder) (entries : List Entry),
      x.newFinder = .ok () → x.find = .ok entries →
      ∃ m, adapterAssignments x σ ρ = .ok m ∧
        (∀ id ∈ entries.map (fun e => e.SourceStreamID),
          ∃ e ∈ entries, e.SourceStreamID = id ∧
            (∀ e' ∈ entries, e'.SourceStreamID = id → e'.Timestamp ≤ e.Timestamp) ∧
            ∃ ids, GoMap.get? m e.IP = some ids ∧ id ∈ ids) ∧
        (σ.sort entries = stableSort entries →
          ∀ id ∈ entries.map (fun e => e.SourceStreamID),
            ∃ e, entries.find? (fun e => decide (e.SourceStreamID = id) &&
                decide (∀ e' ∈ entries, e'.SourceStreamID = id → e'.Timestamp ≤ e.Timestamp))
              = some e ∧
              ∃ ids, GoMap.get? m e.IP = some ids ∧ id ∈ ids)) ∧
    (∀ (x : Elastic) (σ : SliceSort) (ρ : RangeOrder),
      x.newFinder = .ok () → x.find = .ok exampleHeartbeats →
      ∃ m, adapterAssignments x σ ρ = .ok m ∧
        ∀ host, GoMap.get? m host = GoMap.get? [("H1", ["A"]), ("H2", ["B"])] host) := by
  constructor
  · intro x σ ρ entries hf hfind
    refine ⟨_, adapterAssignments_eq x σ ρ entries hf hfind, ?_, ?_⟩
    · intro id hid
      have hid' : id ∈ (σ.sort entries).map (fun e => e.SourceStreamID) :=
        ((σ.perm entries).map _).mem_iff.2 hid
      obtain ⟨e, he⟩ := find?_isSome_of_mem _ id hid'
      have hmem : e ∈ entries := (σ.perm entries).mem_iff.1 (List.mem_of_find?_eq_some he)
      have hp : e.SourceStreamID = id := by simpa using List.find?_some he
      refine ⟨e, hmem, hp, ?_, ?_⟩
      · intro e' he' hp'
        rcases pairwise_find? _ _ _ (σ.sorted entries) e e' he
            ((σ.perm entries).mem_iff.2 he') (by simpa using hp') with h | h
        · rw [h]
        · exact h
      · obtain ⟨m, ids, hm, hg, hin⟩ := listed_under_first x σ ρ entries hf hfind id e he
        rw [adapterAssignments_eq x σ ρ entries hf hfind] at hm
        injection hm with hm
        exact ⟨ids, by rw [hm]; exact hg, hin⟩
    · intro hstable id hid
      have hid' : id ∈ (σ.sort entries).map (fun e => e.SourceStreamID) :=
        ((σ.perm entries).map _).mem_iff.2 hid
      obtain ⟨e, he⟩ := find?_isSome_of_mem _ id hid'
      refine ⟨e, ?_, ?_⟩
      · have h := find?_stableSort (fun b => decide (b.SourceStreamID = id)) entries
        rw [← hstable, he] at h
        rw [h]
        apply find?_congr_mem
        intro a _
        simp
      · obtain ⟨m, ids, hm, hg, hin⟩ := listed_under_first x σ ρ entries hf hfind id e he
        rw [adapterAssignments_eq x σ ρ entries hf hfind] at hm
        injection hm with hm
        exact ⟨ids, by rw [hm]; exact hg, hin⟩
  · intro x σ ρ hf hfind
    refine ⟨_, adapterAssignments_eq x σ ρ exampleHeartbeats hf hfind, ?_⟩
    have hsort : σ.sort exampleHeartbeats = stableSort exampleHeartbeats :=
      sort_eq_of_nodup_timestamps _ _
        ((σ.perm _).trans (SliceSort.stable.perm exampleHeartbeats).symm) (σ.sorted _)
        (SliceSort.stable.sorted exampleHeartbeats)
        ((((σ.perm exampleHeartbeats).map _).nodup_iff).2 (by decide))
    rw [hsort]
    have hkeys : GoMap.keys (firstSeen (stableSort exampleHeartbeats) []) = ["A", "B"] := by
      decide
    rw [hkeys]
    intro host
    have hperm := ρ.perm ["A", "B"]
    rw [groupIDs_get?]
    have hfilter : (ρ.order ["A", "B"]).filter
        (fun id => ((((stableSort exampleHeartbeats).find? (fun b => b.SourceStreamID = id)).map
          (fun e => e.IP)).getD "") = host)
        = ["A", "B"].filter
        (fun id => ((((stableSort exampleHeartbeats).find? (fun b => b.SourceStreamID = id)).map
          (fun e => e.IP)).getD "") = host) := by
      apply perm_eq_of_length_le_one _ _ (hperm.filter _)
      have hA : (((stableSort exampleHeartbeats).find? (fun b => b.SourceStreamID = "A")).map
          (fun e => e.IP)).getD "" = "H1" := by decide
      have hB : (((stableSort exampleHeartbeats).find? (fun b => b.SourceStreamID = "B")).map
          (fun e => e.IP)).getD "" = "H2" := by decide
      simp only [List.filter_cons, hA, hB, List.filter_nil]
      by_cases h1 : "H1" = host
      · subst h1
        simp
      · by_cases h2 : "H2" = host
        · subst h2
          simp
        · simp [h1, h2]
    rw [hfilter]
    have hA : (((stableSort exampleHeartbeats).find? (fun b => b.SourceStreamID = "A")).map
        (fun e => e.IP)).getD "" = "H1" := by decide
    have hB : (((stableSort exampleHeartbeats).find? (fun b => b.SourceStreamID = "B")).map
        (fun e => e.IP)).getD "" = "H2" := by decide
    simp only [List.filter_cons, hA, hB, List.filter_nil, GoMap.get?]
    by_cases h1 : "H1" = host
    · subst h1
      simp
    · by_cases h2 : "H2" = host
      · subst h2
        simp
      · have h1' : ¬ host = "H1" := fun e => h1 e.symm
        have h2' : ¬ host = "H2" := fun e => h2 e.symm
        simp [h1, h2, h1', h2']

/-- The amended C11 at the heartbeats of the example, with the stable sort. -/
theorem latest_record_decides_witness :
    ∃ m, adapterAssignments (elasticOf exampleHeartbeats) SliceSort.stable RangeOrder.reversed
        = .ok m ∧
      (∀ id ∈ exampleHeartbeats.map (fun e => e.SourceStreamID),
        ∃ e ∈ exampleHeartbeats, e.SourceStreamID = id ∧
          (∀ e' ∈ exampleHeartbeats, e'.SourceStreamID = id → e'.Timestamp ≤ e.Timestamp) ∧
          ∃ ids, GoMap.get? m e.IP = some ids ∧ id ∈ ids) ∧
      (SliceSort.stable.sort exampleHeartbeats = stableSort exampleHeartbeats →
        ∀ id ∈ exampleHeartbeats.map (fun e => e.SourceStreamID),
          ∃ e, exampleHeartbeats.find? (fun e => decide (e.SourceStreamID = id) &&
              decide (∀ e' ∈ exampleHeartbeats,
                e'.SourceStreamID = id → e'.Timestamp ≤ e.Timestamp))
            = some e ∧
            ∃ ids, GoMap.get? m e.IP = some ids ∧ id ∈ ids) :=
  latest_record_decides.1 (elasticOf exampleHeartbeats) SliceSort.stable RangeOrder.reversed
    exampleHeartbeats rfl rfl

/-! ## C12: the assignments are a partition -/

theorem mem_of_get? {V : Type} (m : GoMap V) (k : String) (v : V)
    (h : GoMap.get? m k = some v) : (k, v) ∈ m := by
  induction m with
  | nil => cases h
  | cons kv t ih =>
    obtain ⟨k0, v0⟩ := kv
    by_cases hk : k = k0
    · simp only [GoMap.get?, hk, if_true, Option.some.injEq] at h
      simp [hk, h]
    · simp only [GoMap.get?, hk, if_false] at h
      exact List.mem_cons_of_mem _ (ih h)

theorem foldl_length_add (l : List (String × List String)) (n : Nat) :
    l.foldl (fun count kv => count + kv.2.length) n = n + (l.flatMap Prod.snd).length := by
  induction l generalizing n with
  | nil => simp
  | cons kv rest ih =>
    rw [List.foldl_cons, ih, List.flatMap_cons, List.length_append]
    omega

theorem slotsUsed_eq (ρ : RangeOrder) (m : GoMap (List String)) (hnd : (GoMap.keys m).Nodup) :
    slotsUsed ρ m = (m.flatMap Prod.snd).length := by
  unfold slotsUsed
  rw [foldl_length_add, Nat.zero_add]
  exact ((GoMap.range_perm ρ m hnd).flatMap_right _).length_eq

theorem assignments_flatten (σ : SliceSort) (ρ : RangeOrder) (entries : List Entry)
    (f : String → String) :
    ((groupIDs f (ρ.order (GoMap.keys (firstSeen (σ.sort entries) []))) []).flatMap
      Prod.snd).Perm (entries.map (fun e => e.SourceStreamID)).dedup := by
  refine (groupIDs_flatten f _ []).trans ?_
  simp only [List.flatMap_nil, List.nil_append]
  refine (ρ.perm _).trans ?_
  rw [List.perm_ext_iff_of_nodup (firstSeen_nodup _ [] (by simp [GoMap.keys]))
    (List.nodup_dedup _)]
  intro k
  rw [mem_keys_firstSeen, List.mem_dedup]
  exact ((σ.perm entries).map _).mem_iff

/-- C12: for every input list of heartbeat records, every sort that meets the contract
of `sort.Slice` and every order of the range loop, the result of `adapterAssignments`
is a partition of the distinct source stream IDs by reporting host: every source stream
ID of the input stands under exactly one host, exactly once in its list; every list is
non-empty and holds source stream IDs of the input only; and the count of
`AdapterSlotsUsed`, the sum of the lengths of the lists, is the number of distinct
source stream IDs. -/
theorem assignments_partition (x : Elastic) (σ : SliceSort) (ρ : RangeOrder)
    (entries : List Entry) (hf : x.newFinder = .ok ()) (hfind : x.find = .ok entries) :
    ∃ m, adapterAssignments x σ ρ = .ok m ∧
      (∀ id ∈ entries.map (fun e => e.SourceStreamID), ∃ host ids,
        GoMap.get? m host = some ids ∧ ids.count id = 1 ∧
        ∀ host' ids', GoMap.get? m host' = some ids' → id ∈ ids' → host' = host) ∧
      (∀ host ids, GoMap.get? m host = some ids →
        ids ≠ [] ∧ ∀ id ∈ ids, id ∈ entries.map (fun e => e.SourceStreamID)) ∧
      (∀ ρ', slotsUsed ρ' m = (entries.map (fun e => e.SourceStreamID)).dedup.length) := by
  refine ⟨_, adapterAssignments_eq x σ ρ entries hf hfind, ?_, ?_, ?_⟩
  all_goals
    generalize hfdef : (fun k => (((σ.sort entries).find? (fun b => b.SourceStreamID = k)).map
      (fun e => e.IP)).getD "") = f
    have hflat := assignments_flatten σ ρ entries f
    have hkeys : (GoMap.keys (groupIDs f
        (ρ.order (GoMap.keys (firstSeen (σ.sort entries) []))) [])).Nodup :=
      groupIDs_nodup _ _ _ (by simp [GoMap.keys])
    have hfull : ∀ host ids, GoMap.get? (groupIDs f
        (ρ.order (GoMap.keys (firstSeen (σ.sort entries) []))) []) host = some ids → ids ≠ [] :=
      fun host ids h => ((groupIDs_nil_get? f _ host ids).1 h).2
    generalize groupIDs f (ρ.order (GoMap.keys (firstSeen (σ.sort entries) []))) [] = m
      at hflat hkeys hfull ⊢
    have hnd : (m.flatMap Prod.snd).Nodup := hflat.nodup_iff.2 (List.nodup_dedup _)
  · intro id hid
    have hin : id ∈ m.flatMap Prod.snd := hflat.mem_iff.2 (List.mem_dedup.2 hid)
    obtain ⟨kv, hkv, hidkv⟩ := List.mem_flatMap.1 hin
    obtain ⟨host, ids⟩ := kv
    rw [List.nodup_flatMap] at hnd
    refine ⟨host, ids, GoMap.get?_of_mem m hkeys host ids hkv,
      List.count_eq_one_of_mem (hnd.1 _ hkv) hidkv, ?_⟩
    intro host' ids' hg' hid'
    have hkv' := mem_of_get? m host' ids' hg'
    by_contra hne
    have hpair : (host', ids') ≠ (host, ids) := fun e => hne (congrArg Prod.fst e)
    have hdisj := hnd.2.forall (fun _ _ h => h.symm) hkv' hkv hpair
    exact hdisj hid' hidkv
  · intro host ids hg
    have hkv := mem_of_get? m host ids hg
    constructor
    · exact hfull host ids hg
    · intro id hid
      exact List.mem_dedup.1 (hflat.mem_iff.1 (List.mem_flatMap.2 ⟨_, hkv, hid⟩))
  · intro ρ'
    rw [slotsUsed_eq ρ' m hkeys]
    exact hflat.length_eq

/-- C12 at the heartbeats of the example. -/
theorem assignments_partition_witness :
    ∃ m, adapterAssignments (elasticOf exampleHeartbeats) SliceSort.stable RangeOrder.asStored
        = .ok m ∧
      (∀ id ∈ exampleHeartbeats.map (fun e => e.SourceStreamID), ∃ host ids,
        GoMap.get? m host = some ids ∧ ids.count id = 1 ∧
        ∀ host' ids', GoMap.get? m host' = some ids' → id ∈ ids' → host' = host) ∧
      (∀ host ids, GoMap.get? m host = some ids →
        ids ≠ [] ∧ ∀ id ∈ ids, id ∈ exampleHeartbeats.map (fun e => e.SourceStreamID)) ∧
      (∀ ρ', slotsUsed ρ' m
        = (exampleHeartbeats.map (fun e => e.SourceStreamID)).dedup.length) :=
  assignments_partition (elasticOf exampleHeartbeats) SliceSort.stable RangeOrder.asStored
    exampleHeartbeats rfl rfl

/-! ## C13: the connected transcoders -/

theorem checkerLoop_get? (l : List Entry) (cm : GoMap (List String)) (k : String) :
    GoMap.get? (checkerLoop l cm) k =
      match GoMap.get? cm k with
      | some v => some v
      | none => if k ∈ l.map (fun e => e.Host) then some ["Various"] else none := by
  induction l generalizing cm with
  | nil => cases h : GoMap.get? cm k <;> simp [checkerLoop, h]
  | cons b rest ih =>
    rw [checkerLoop]
    cases hb : GoMap.get? cm b.Host with
    | some v0 =>
      simp only [ih]
      cases hk : GoMap.get? cm k with
      | some v => rfl
      | none =>
        have hne : k ≠ b.Host := by
          rintro rfl
          rw [hb] at hk
          cases hk
        simp [hne]
    | none =>
      simp only [ih, GoMap.get?_set]
      by_cases hkb : k = b.Host
      · subst hkb
        simp [hb]
      · simp only [if_neg hkb]
        cases hk : GoMap.get? cm k <;> simp [hkb]

theorem checkerLoop_nodup (l : List Entry) (cm : GoMap (List String))
    (h : (GoMap.keys cm).Nodup) : (GoMap.keys (checkerLoop l cm)).Nodup := by
  induction l generalizing cm with
  | nil => exact h
  | cons b rest ih =>
    rw [checkerLoop]
    cases GoMap.get? cm b.Host with
    | some v0 => exact ih cm h
    | none => exact ih _ (GoMap.nodup_keys_set _ _ _ h)

/-- C13, as stated, fails: the placeholder list the code stores is `["Various"]`, with a
capital `V`, not `["various"]`. -/
theorem placeholder_is_capitalised :
    connectedTranscoders (elasticOf exampleHeartbeats)
      = .ok [("H1", ["Various"]), ("H2", ["Various"])] ∧
    GoMap.get? [("H1", ["Various"]), ("H2", ["Various"])] "H1" ≠ some ["various"] :=
  ⟨by decide, by decide⟩

/-- C13, amended: for every list of heartbeat entries returned by the filtered search,
`connectedTranscoders` returns a map whose keys are exactly the distinct reporting hosts
of the entries and which maps every one of them to the constant one-element placeholder
list `["Various"]`. -/
theorem transcoders_placeholder (x : Elastic) (entries : List Entry)
    (hc : x.newClient = .ok ()) (hb : x.build = .ok ()) (he : x.entries = .ok entries) :
    ∃ m, connectedTranscoders x = .ok m ∧
      (GoMap.keys m).Nodup ∧
      (∀ host, host ∈ GoMap.keys m ↔ host ∈ entries.map (fun e => e.Host)) ∧
      (∀ host ∈ entries.map (fun e => e.Host), GoMap.get? m host = some ["Various"]) := by
  refine ⟨checkerLoop entries [], by simp only [connectedTranscoders, hc, hb, he],
    checkerLoop_nodup _ _ (by simp [GoMap.keys]), ?_, ?_⟩
  · intro host
    rw [GoMap.mem_keys_iff]
    simp only [checkerLoop_get?, GoMap.get?]
    by_cases h : host ∈ entries.map (fun e => e.Host)
    · simp only [h, if_true, iff_true]
      exact ⟨_, rfl⟩
    · simp only [h, if_false, iff_false]
      rintro ⟨v, hv⟩
      cases hv
  · intro host h
    simp only [checkerLoop_get?, GoMap.get?, h, if_true]

/-- The amended C13 at the heartbeats of the example. -/
theorem transcoders_placeholder_witness :
    ∃ m, connectedTranscoders (elasticOf exampleHeartbeats) = .ok m ∧
      (GoMap.keys m).Nodup ∧
      (∀ host, host ∈ GoMap.keys m ↔ host ∈ exampleHeartbeats.map (fun e => e.Host)) ∧
      (∀ host ∈ exampleHeartbeats.map (fun e => e.Host),
        GoMap.get? m host = some ["Various"]) :=
  transcoders_placeholder (elasticOf exampleHeartbeats) exampleHeartbeats rfl rfl rfl

/-! ## C14: the redirects of a reachable store -/

theorem streamsLoop_eq_none_iff (unmarshal : String → Except Error Redirect) (now : Int)
    (vals : List String) (i : Nat) (redirects : Option (List Redirect)) :
    streamsLoop unmarshal now vals i redirects = none ↔
      redirects = none ∧
      ∀ j (h : j < vals.length), (i + j) % 2 = 1 →
        ∀ s, unmarshal (vals.get ⟨j, h⟩) = .ok s → ¬ now - s.Timestamp < twoMinutes := by
  induction vals generalizing i redirects with
  | nil => simp [streamsLoop]
  | cons val vals ih =>
    have shift : (∀ j (h : j < (val :: vals).length), (i + j) % 2 = 1 →
          ∀ s, unmarshal ((val :: vals).get ⟨j, h⟩) = .ok s → ¬ now - s.Timestamp < twoMinutes)
        ↔ ((i % 2 = 1 → ∀ s, unmarshal val = .ok s → ¬ now - s.Timestamp < twoMinutes) ∧
          ∀ j (h : j < vals.length), (i + 1 + j) % 2 = 1 →
            ∀ s, unmarshal (vals.get ⟨j, h⟩) = .ok s → ¬ now - s.Timestamp < twoMinutes) := by
      constructor
      · intro hall
        refine ⟨fun hi s hs => hall 0 (by simp) (by simpa using hi) s (by simpa using hs),
          fun j hj hij s hs => ?_⟩
        have := hall (j + 1) (by simp; omega) (by rw [← hij]; congr 1; omega) s
          (by simpa using hs)
        exact this
      · rintro ⟨h0, hrest⟩ j hj hij s hs
        cases j with
        | zero => exact h0 (by simpa using hij) s (by simpa using hs)
        | succ j =>
          exact hrest j (by simp at hj; omega) (by rw [← hij]; congr 1; omega) s
            (by simpa using hs)
    rw [shift, streamsLoop]
    by_cases hi : i % 2 = 1
    · rw [if_pos hi]
      cases hu : unmarshal val with
      | error e =>
        simp only [ih]
        constructor
        · rintro ⟨h1, h2⟩
          exact ⟨h1, (fun _ s hs => Except.noConfusion hs), h2⟩
        · rintro ⟨h1, _, h2⟩
          exact ⟨h1, h2⟩
      | ok s =>
        by_cases ht : now - s.Timestamp < twoMinutes
        · simp only [if_pos ht, ih]
          constructor
          · rintro ⟨h1, _⟩
            cases h1
          · rintro ⟨_, h0, _⟩
            exact absurd ht (h0 hi s rfl)
        · simp only [if_neg ht, ih]
          constructor
          · rintro ⟨h1, h2⟩
            refine ⟨h1, fun _ s' hs' => ?_, h2⟩
            injection hs' with hs'
            rw [← hs']
            exact ht
          · rintro ⟨h1, _, h2⟩
            exact ⟨h1, h2⟩
    · rw [if_neg hi]
      simp only [ih]
      constructor
      · rintro ⟨h1, h2⟩
        exact ⟨h1, fun h => absurd h hi, h2⟩
      · rintro ⟨h1, _, h2⟩
        exact ⟨h1, h2⟩

/-- What holds of C14 on the code: on a reachable store `redirectDb.streams` returns a
nil error, whatever the hash holds, and a value that fails to decode is skipped; but the
list it returns is nil exactly when no value of the hash decodes to a redirect younger
than two minutes. -/
theorem streams_of_reachable (db : RedirectStore) (vals : List String)
    (hc : db.connect = .ok ()) (hv : db.hgetall = .ok vals) :
    ∃ redirects, streams db = .ok redirects ∧
      (redirects = none ↔
        ∀ j (h : j < vals.length), j % 2 = 1 →
          ∀ s, db.unmarshal (vals.get ⟨j, h⟩) = .ok s → ¬ db.now - s.Timestamp < twoMinutes) := by
  refine ⟨streamsLoop db.unmarshal db.now vals 0 none, by simp only [streams, hc, hv], ?_⟩
  rw [streamsLoop_eq_none_iff]
  simp

/-- C14 fails on the code: on a reachable store whose redirect hash is empty,
`redirectDb.streams` returns a nil error and a nil list, which `TestNS` rejects
(`assert.NotNil`). -/
theorem empty_hash_gives_nil_list : streams emptyRedirectStore = .ok none := rfl

end dashboard

namespace controldb

/-! ## The loops never index out of range on replies of the right length -/

theorem groupLoop_ok (result r : List String) (i : Nat) (m : GoMap (List String))
    (hlen : i + r.length ≤ result.length) (hnd : (GoMap.keys m).Nodup) :
    ∃ m', groupLoop result none r i m = .ok m' ∧ (GoMap.keys m').Nodup := by
  induction r generalizing i m with
  | nil => exact ⟨m, rfl, hnd⟩
  | cons ip r ih =>
    have hi : i < result.length := by simp at hlen; omega
    obtain ⟨m', hm', hnd'⟩ := ih (i + 1)
      (GoMap.set m ip
        (match GoMap.get? m ip with
        | some mediaIDs => mediaIDs ++ [TrimPrefix result[i] streamKeyPfx]
        | none => [TrimPrefix result[i] streamKeyPfx]))
      (by simp at hlen ⊢; omega) (GoMap.nodup_keys_set _ _ _ hnd)
    refine ⟨m', ?_, hnd'⟩
    rw [groupLoop]
    simp only [List.getElem?_eq_getElem hi]
    exact hm'

theorem hostsLoop_ok (names ks : List String) (i : Nat) (hosts : GoMap String)
    (gets : List String) (index : Nat) (hlen : i + ks.length ≤ names.length) :
    ∃ hosts' gets', hostsLoop names ks i (hosts, gets, index)
        = .ok (hosts', gets', index + ks.length) ∧
      gets'.length = gets.length + ks.length := by
  induction ks generalizing i hosts gets index with
  | nil => exact ⟨hosts, gets, rfl, rfl⟩
  | cons k ks ih =>
    have hi : i < names.length := by simp at hlen; omega
    obtain ⟨hosts', gets', h, hl⟩ := ih (i + 1) (GoMap.set hosts k names[i])
      (gets ++ ["hosttype:" ++ names[i]]) (index + 1) (by simp at hlen ⊢; omega)
    refine ⟨hosts', gets', ?_, ?_⟩
    · rw [hostsLoop]
      simp only [List.getElem?_eq_getElem hi]
      rw [h]
      simp only [List.length_cons]
      congr 3
      omega
    · rw [hl]
      simp
      omega

theorem prefixIDs_ok (names ids : List String) (index : Nat)
    (hlen : index + ids.length ≤ names.length) :
    ∃ ids', prefixIDs names ids index = .ok (ids', index + ids.length) := by
  induction ids generalizing index with
  | nil => exact ⟨[], rfl⟩
  | cons id ids ih =>
    have hi : index < names.length := by simp at hlen; omega
    obtain ⟨ids', h⟩ := ih (index + 1) (by simp at hlen ⊢; omega)
    refine ⟨(names[index] ++ ":" ++ id) :: ids', ?_⟩
    rw [prefixIDs]
    simp only [List.getElem?_eq_getElem hi, h, List.length_cons]
    congr 2
    omega

theorem flatMap_getD_set (m : GoMap (List String)) (k : String) (v : List String)
    (ks : List String) (hk : k ∉ ks) :
    ks.flatMap (fun k' => (GoMap.get? (GoMap.set m k v) k').getD [])
      = ks.flatMap (fun k' => (GoMap.get? m k').getD []) := by
  induction ks with
  | nil => rfl
  | cons a as iha =>
    have ha : a ≠ k := fun e => hk (by simp [e])
    have has : k ∉ as := fun e => hk (by simp [e])
    rw [List.flatMap_cons, List.flatMap_cons, iha has, GoMap.get?_set, if_neg ha]

theorem attachLoop_ok (names types ks : List String) (hnd : ks.Nodup) (i : Nat)
    (m : GoMap (List String)) (it : GoMap String) (index : Nat)
    (htypes : i + ks.length ≤ types.length)
    (hnames : index + (ks.flatMap (fun k => (GoMap.get? m k).getD [])).length ≤ names.length) :
    ∃ st, attachLoop names types ks i (m, it, index) = .ok st := by
  induction ks generalizing i m it index with
  | nil => exact ⟨_, rfl⟩
  | cons k ks ih =>
    have hk : k ∉ ks := (List.nodup_cons.1 hnd).1
    have hks : ks.Nodup := (List.nodup_cons.1 hnd).2
    have hi : i < types.length := by simp at htypes; omega
    rw [attachLoop]
    simp only [List.getElem?_eq_getElem hi]
    cases hg : GoMap.get? m k with
    | none =>
      simp only [List.flatMap_cons, hg, Option.getD_none, List.nil_append] at hnames
      exact ih hks (i + 1) m _ index (by simp at htypes ⊢; omega) hnames
    | some ids =>
      simp only [List.flatMap_cons, hg, Option.getD_some, List.length_append] at hnames
      obtain ⟨ids', hp⟩ := prefixIDs_ok names ids index (by omega)
      simp only [hp]
      exact ih hks (i + 1) (GoMap.set m k ids') _ (index + ids.length)
        (by simp at htypes ⊢; omega)
        (by rw [flatMap_getD_set m k ids' ks hk]; omega)

theorem stage3Gets_length (keys : List String) (m : GoMap (List String)) :
    (stage3Gets keys m).length
      = keys.length + (keys.flatMap (fun k => (GoMap.get? m k).getD [])).length := by
  simp only [stage3Gets, List.length_append, List.length_map, List.length_flatMap,
    Function.comp_def]

/-- When every reply is as long as its request list, whatever the replies hold,
`FetchAllCatchers` returns a map, or the error of a stage that failed. -/
theorem FetchAllCatchers_outcome (c : Conn) (ρ : RangeOrder)
    (hlen : ∀ stage gets reply, c.EXEC stage gets = .ok reply → reply.length = gets.length) :
    (∃ m, FetchAllCatchers c ρ = .ok m) ∨
      ∃ e, FetchAllCatchers c ρ = .fail e ∧
        (c.connect = .error e ∨ c.keys = .error e ∨ ∃ stage gets, c.EXEC stage gets = .error e) := by
  unfold FetchAllCatchers
  cases hc : c.connect with
  | error e => exact Or.inr ⟨e, rfl, Or.inl rfl⟩
  | ok u =>
    cases hk : c.keys with
    | error e => exact Or.inr ⟨e, rfl, Or.inr (Or.inl rfl)⟩
    | ok result =>
      by_cases hr : result.length = 0
      · exact Or.inl ⟨[], by simp [hr]⟩
      · simp only [hr, if_false]
        have hgroup : ∃ m, (match (match c.EXEC 2 result with
              | .ok r => (r, none)
              | .error e => ([], some e) : List String × Option Error) with
            | (r, err) => groupLoop result err r 0 []) = .ok m ∧ (GoMap.keys m).Nodup := by
          cases h2 : c.EXEC 2 result with
          | error e => exact ⟨[], rfl, by simp [GoMap.keys]⟩
          | ok r =>
            have := hlen 2 result r h2
            exact groupLoop_ok result r 0 [] (by omega) (by simp [GoMap.keys])
        obtain ⟨m, hm, hnd⟩ := hgroup
        simp only [] at hm
        rw [hm]
        simp only []
        rw [GoMap.range_map_fst]
        have hperm : (sortStrings (ρ.order (GoMap.keys m))).Perm (GoMap.keys m) :=
          (sortStrings_perm _).trans (ρ.perm _)
        generalize sortStrings (ρ.order (GoMap.keys m)) = keys at hperm ⊢
        have hkeys : keys.Nodup := hperm.nodup_iff.2 hnd
        cases h3 : c.EXEC 3 (stage3Gets keys m) with
        | error e => exact Or.inr ⟨e, rfl, Or.inr (Or.inr ⟨3, _, h3⟩)⟩
        | ok names =>
          have hn := hlen 3 _ names h3
          rw [stage3Gets_length] at hn
          obtain ⟨hosts, gets, hh, hg⟩ := hostsLoop_ok names keys 0 [] [] 0 (by omega)
          simp only [hh]
          cases h4 : c.EXEC 4 gets with
          | error e => exact Or.inr ⟨e, rfl, Or.inr (Or.inr ⟨4, _, h4⟩)⟩
          | ok types =>
            have ht := hlen 4 _ types h4
            obtain ⟨st, ha⟩ := attachLoop_ok names types keys hkeys 0 m [] (0 + keys.length)
              (by simp at hg; omega) (by omega)
            simp only [ha]
            exact Or.inl ⟨_, rfl⟩

/-! ## C16: no index is out of range -/

/-- C16: on every server on which each batched get returns exactly one value per
request, whatever the values are (the empty string of a key that expired between two
stages included), `FetchAllCatchers` does not panic: none of `result[i]`, `names[i]`,
`types[i]` and `names[index]` is out of range. When no stage reports an error it
returns a map. -/
theorem no_index_out_of_range (c : Conn) (ρ : RangeOrder)
    (hlen : ∀ stage gets reply, c.EXEC stage gets = .ok reply → reply.length = gets.length) :
    FetchAllCatchers c ρ ≠ .panic ∧
      ((∀ e, c.connect ≠ .error e) → (∀ e, c.keys ≠ .error e) →
        (∀ stage gets e, c.EXEC stage gets ≠ .error e) →
        ∃ m, FetchAllCatchers c ρ = .ok m) := by
  rcases FetchAllCatchers_outcome c ρ hlen with ⟨m, hm⟩ | ⟨e, he, hcause⟩
  · exact ⟨by rw [hm]; exact fun h => Outcome.noConfusion h, fun _ _ _ => ⟨m, hm⟩⟩
  · refine ⟨by rw [he]; exact fun h => Outcome.noConfusion h, fun h1 h2 h3 => ?_⟩
    rcases hcause with h | h | ⟨stage, gets, h⟩
    · exact absurd h (h1 e)
    · exact absurd h (h2 e)
    · exact absurd h (h3 stage gets e)

/-- C16 on a server where every key but the stream records has expired when stage 3
begins: the call returns the directory `{"unknown : ip1 : unknown": [":s1", ":s2"]}`. -/
theorem no_index_out_of_range_witness :
    FetchAllCatchers expiringConn RangeOrder.asStored
        = .ok [("unknown : ip1 : unknown", [":s1", ":s2"])] ∧
      FetchAllCatchers expiringConn RangeOrder.asStored ≠ .panic ∧
      ((∀ e, expiringConn.connect ≠ .error e) → (∀ e, expiringConn.keys ≠ .error e) →
        (∀ stage gets e, expiringConn.EXEC stage gets ≠ .error e) →
        ∃ m, FetchAllCatchers expiringConn RangeOrder.asStored = .ok m) :=
  ⟨by decide, no_index_out_of_range expiringConn RangeOrder.asStored (by
    intro stage gets reply h
    by_cases hs : stage = 2
    · simp only [expiringConn, hs, if_true, Except.ok.injEq] at h
      rw [← h, List.length_map]
    · simp only [expiringConn, hs, if_false, Except.ok.injEq] at h
      rw [← h, List.length_map])⟩

/-! ## C15: every response is paired with its request -/

theorem names_eq (s : Snapshot) (ρ : RangeOrder) :
    s.names ρ = (s.sortedIPs ρ).map (fun ip => s.get ("hostlookup:" ++ ip))
      ++ (s.requestedIDs ρ).map (fun id => s.get ("nameservice:activehost:" ++ id)) := by
  simp only [Snapshot.names, Snapshot.requestedIDs, stage3Gets, List.map_append, List.map_map,
    List.map_flatMap, Function.comp_def]

theorem mem_sortedIPs (s : Snapshot) (ρ : RangeOrder) (ip : String) :
    ip ∈ s.sortedIPs ρ ↔ ∃ id ∈ s.streamIDs, s.ip id = ip := by
  unfold Snapshot.sortedIPs
  rw [(sortStrings_perm _).mem_iff, GoMap.range_map_fst, (ρ.perm _).mem_iff,
    GoMap.mem_keys_iff]
  constructor
  · rintro ⟨v, hv⟩
    obtain ⟨h1, h2⟩ := (groupIDs_nil_get? s.ip s.streamIDs ip v).1 hv
    rw [h1] at h2
    exact exists_of_streamsOf_ne_nil s ip h2
  · rintro ⟨id, hid, rfl⟩
    exact ⟨_, (groupIDs_nil_get? s.ip s.streamIDs _ _).2 ⟨rfl, streamsOf_ne_nil s id hid⟩⟩

theorem getD_groupIDs (s : Snapshot) (ip : String) :
    (GoMap.get? (groupIDs s.ip s.streamIDs []) ip).getD [] = s.streamsOf ip := by
  rw [groupIDs_get?]
  by_cases h : s.streamIDs.filter (fun id => s.ip id = ip) = []
  · simp [h, GoMap.get?, Snapshot.streamsOf]
  · simp [h, GoMap.get?, Snapshot.streamsOf]

theorem requestedIDs_eq (s : Snapshot) (ρ : RangeOrder) :
    s.requestedIDs ρ = (s.sortedIPs ρ).flatMap s.streamsOf := by
  unfold Snapshot.requestedIDs
  simp only [getD_groupIDs]

theorem drop_flatMap_take {α β : Type} (f : α → List β) (l : List α) (i : Nat) :
    (l.flatMap f).drop ((l.take i).flatMap f).length = (l.drop i).flatMap f := by
  have h : l.flatMap f = (l.take i).flatMap f ++ (l.drop i).flatMap f := by
    rw [← List.flatMap_append, List.take_append_drop]
  rw [h, List.drop_left]

theorem zipWith_map_append (ah : String → String) (l rest : List String) :
    List.zipWith (fun name id => name ++ ":" ++ id) (l.map ah ++ rest) l
      = l.map (fun id => ah id ++ ":" ++ id) := by
  induction l with
  | nil => simp
  | cons a l ih => simp [ih]

/-- The label composed from the replies by position is the label of the IP. -/
theorem labelAt_eq (s : Snapshot) (ρ : RangeOrder) (i : Nat) (h : i < (s.sortedIPs ρ).length) :
    s.labelAt (s.sortedIPs ρ) (s.names ρ) i = s.label (s.sortedIPs ρ)[i] := by
  have hn : (s.names ρ).getD i "" = s.hostname (s.sortedIPs ρ)[i] := by
    rw [List.getD_eq_getElem?_getD, names_eq, List.getElem?_append_left (by simpa using h)]
    simp [List.getElem?_eq_getElem h, Snapshot.hostname]
  unfold Snapshot.labelAt Snapshot.label Snapshot.hostType
  rw [hn, List.getD_eq_getElem _ _ h]

/-- The entries composed from the replies by position are the entries of the IP. -/
theorem entriesAt_eq (s : Snapshot) (ρ : RangeOrder) (i : Nat)
    (h : i < (s.sortedIPs ρ).length) :
    s.entriesAt (s.sortedIPs ρ) (s.names ρ) i
      = (s.streamsOf (s.sortedIPs ρ)[i]).map s.entry := by
  unfold Snapshot.entriesAt
  have hd : (s.names ρ).drop ((s.sortedIPs ρ).length +
      (((s.sortedIPs ρ).take i).flatMap s.streamsOf).length)
      = (s.streamsOf (s.sortedIPs ρ)[i]).map s.activeHost
        ++ (((s.sortedIPs ρ).drop (i + 1)).flatMap s.streamsOf).map s.activeHost := by
    rw [names_eq, requestedIDs_eq]
    have hl : ((s.sortedIPs ρ).map (fun ip => s.get ("hostlookup:" ++ ip))).length
        = (s.sortedIPs ρ).length := List.length_map _ _
    rw [← hl, List.drop_append, ← List.map_drop, drop_flatMap_take,
      List.drop_eq_getElem_cons h, List.flatMap_cons, List.map_append]
    rfl
  rw [hd, List.getD_eq_getElem _ _ h, zipWith_map_append]
  rfl

/-- C15: on a snapshot, where every batched get returns one value per request in the
order of the requests, let `names` be the reply of the stage-3 round trip. The reply
`names[i]` is the value of `hostlookup:<ip>` for the `i`-th of the sorted IPs, and the
reply `names[len(sorted IPs) + j]` is the value of `nameservice:activehost:<id>` for the
`j`-th stream ID of the per-IP lists taken in sorted-IP order. `FetchAllCatchers` uses
every reply so: each label of its result is composed, for one of the IPs, from the value
of `hostlookup:<ip>` and from the value of `hosttype:<that hostname>`, and its list holds
the stream IDs of that IP, each behind the value of `nameservice:activehost:<that stream
ID>` and a colon; and for every position `i` the label composed from `names[i]` is in
the result, with the entries composed by position of an IP that composes the same label,
which is the `i`-th IP itself when no two positions compose one label. -/
theorem responses_paired_with_requests (s : Snapshot) (ρ : RangeOrder) :
    ∃ names m,
      s.conn.EXEC 3 (stage3Gets (s.sortedIPs ρ) (groupIDs s.ip s.streamIDs [])) = .ok names ∧
      FetchAllCatchers s.conn ρ = .ok m ∧
      (s.sortedIPs ρ).Sorted (fun a b => lexLT b.data a.data = false) ∧
      (∀ ip, ip ∈ s.sortedIPs ρ ↔ ∃ id ∈ s.streamIDs, s.get (streamKeyPfx ++ id) = ip) ∧
      s.requestedIDs ρ = (s.sortedIPs ρ).flatMap
        (fun ip => s.streamIDs.filter (fun id => s.get (streamKeyPfx ++ id) = ip)) ∧
      (∀ i (h : i < (s.sortedIPs ρ).length),
        names[i]? = some (s.get ("hostlookup:" ++ (s.sortedIPs ρ)[i]))) ∧
      (∀ j (h : j < (s.requestedIDs ρ).length),
        names[(s.sortedIPs ρ).length + j]?
          = some (s.get ("nameservice:activehost:" ++ (s.requestedIDs ρ)[j]))) ∧
      (∀ label es, GoMap.get? m label = some es →
        ∃ ip ∈ s.sortedIPs ρ,
          label = orUnknown (s.get ("hostlookup:" ++ ip)) ++ " : " ++ ip ++ " : " ++
            orUnknown (s.get ("hosttype:" ++ s.get ("hostlookup:" ++ ip))) ∧
          es = (s.streamIDs.filter (fun id => s.get (streamKeyPfx ++ id) = ip)).map
            (fun id => s.get ("nameservice:activehost:" ++ id) ++ ":" ++ id)) ∧
      (∀ i, i < (s.sortedIPs ρ).length →
        ∃ i', i' < (s.sortedIPs ρ).length ∧
          s.labelAt (s.sortedIPs ρ) names i' = s.labelAt (s.sortedIPs ρ) names i ∧
          GoMap.get? m (s.labelAt (s.sortedIPs ρ) names i)
            = some (s.entriesAt (s.sortedIPs ρ) names i')) ∧
      ((∀ i i', i < (s.sortedIPs ρ).length → i' < (s.sortedIPs ρ).length →
          s.labelAt (s.sortedIPs ρ) names i = s.labelAt (s.sortedIPs ρ) names i' → i = i') →
        ∀ i, i < (s.sortedIPs ρ).length →
          GoMap.get? m (s.labelAt (s.sortedIPs ρ) names i)
            = some (s.entriesAt (s.sortedIPs ρ) names i)) := by
  have hcomplete : ∀ i, i < (s.sortedIPs ρ).length →
      ∃ i', i' < (s.sortedIPs ρ).length ∧
        s.labelAt (s.sortedIPs ρ) (s.names ρ) i' = s.labelAt (s.sortedIPs ρ) (s.names ρ) i ∧
        GoMap.get? (s.directory ρ) (s.labelAt (s.sortedIPs ρ) (s.names ρ) i)
          = some (s.entriesAt (s.sortedIPs ρ) (s.names ρ) i') := by
    intro i h
    obtain ⟨id, hid, hip⟩ := (mem_sortedIPs s ρ _).1 (List.getElem_mem h)
    obtain ⟨id', hid', hl, hg⟩ := dir_present s ρ id hid
    obtain ⟨i', h', hi'⟩ := List.getElem_of_mem ((mem_sortedIPs s ρ _).2 ⟨id', hid', rfl⟩)
    refine ⟨i', h', ?_, ?_⟩
    · rw [labelAt_eq s ρ i' h', labelAt_eq s ρ i h, hi', hl, hip]
    · rw [labelAt_eq s ρ i h, entriesAt_eq s ρ i' h', hi', ← hip]
      exact hg
  refine ⟨s.names ρ, s.directory ρ, rfl, FetchAllCatchers_snapshot s ρ, sortStrings_sorted _,
    mem_sortedIPs s ρ, requestedIDs_eq s ρ, ?_, ?_, ?_, hcomplete, ?_⟩
  · intro i h
    rw [names_eq, List.getElem?_append_left (by simpa using h)]
    simp [List.getElem?_eq_getElem h]
  · intro j h
    rw [names_eq, List.getElem?_append_right (by simp)]
    simp [List.getElem?_eq_getElem h]
  · intro label es hg
    obtain ⟨id, hid, hl, hes⟩ := dir_sound s ρ label es hg
    exact ⟨s.ip id, (mem_sortedIPs s ρ _).2 ⟨id, hid, rfl⟩, hl, hes⟩
  · intro hinj i h
    obtain ⟨i', h', hl, hg⟩ := hcomplete i h
    rw [hg, hinj i' i h' h hl]

/-! ## C17: the label round trip -/

end controldb
